import Mathlib

/-! climate.c : per-state aggregation of NOAA observations

A shallow embedding of `src/climate.c` and theorems about it.

Modelling conventions.

* `double` and `long double` values are rationals and their arithmetic is exact.
* `unsigned long` is a natural number below `2 ^ 64`; `++` wraps.  `long` is an
  integer; the one `long` addition of the program (`snowCount +=`) is taken with
  two's-complement wrap-around, which is what the usual targets do where C leaves
  the overflow undefined.
* C strings are `List Char`; `strcmp(a, b) == 0` is equality of the lists.
* `states` is the list of its `num_states` slots, `none` for `NULL`.
* Memory that the program reads without having written it (the block returned
  by `malloc`, the slots of `tokens` that the tokenising loop did not fill) has
  an indeterminate content.  That content is an explicit input of the model, so
  that a statement quantified over it holds whatever the memory contained.
* `malloc` is taken to succeed.
-/

namespace Climate

/-! ## Constants and the record type -/

/-- The constant `NUM_STATES`, defined as 50. -/
def NUM_STATES : Nat := 50

/-- Number of values of an `unsigned long` (64 bits). -/
def ULONG_SIZE : Nat := 18446744073709551616

/-- Largest `long`. -/
def LONG_MAX : Int := 9223372036854775807

/-- Smallest `long`. -/
def LONG_MIN : Int := -9223372036854775808

/-- The record `struct climate_info`.  `code` is `char code[3]`: it has room for a state
code of two characters; the model keeps whatever string `strcpy` was given. -/
structure climate_info where
  code : List Char
  numRecords : Nat
  humidity : ℚ
  snowCount : Int
  cloudCover : ℚ
  pressure : ℚ
  surfaceTemp : ℚ
  avgTemperature : ℚ
  avgHumidity : ℚ
  maxTemp : ℚ
  minTemp : ℚ
  lightningCount : ℚ
  avgCloudCover : ℚ
  timeStamp : Int
  maxTimeStamp : Int
  minTimeStamp : Int
deriving DecidableEq

/-! ## The C library functions the program calls -/

/-- The function `isspace` in the C locale. -/
def isspace (c : Char) : Bool :=
  c == ' ' || c == '\t' || c == '\n' || c == '\x0b' || c == '\x0c' || c == '\r'

/-- The function `isdigit`. -/
def isdigit (c : Char) : Bool :=
  decide ('0' ≤ c) && decide (c ≤ '9')

/-- Value of a decimal digit character. -/
def digitVal (c : Char) : Nat :=
  c.toNat - 48

/-- Value of a string of decimal digits, most significant first. -/
def decimalValue (ds : List Char) : Nat :=
  ds.foldl (fun acc c => acc * 10 + digitVal c) 0

/-- Whether the string starts with the character `c`. -/
def startsWith (c : Char) (s : List Char) : Bool :=
  s.head? == some c

/-- Drops an optional leading sign. -/
def dropSign (s : List Char) : List Char :=
  if startsWith '-' s || startsWith '+' s then s.tail else s

/-- Clamps an integer to the range of `long`. -/
def clampLong (v : Int) : Int :=
  max LONG_MIN (min LONG_MAX v)

/-- The function `atol`, that is `strtol(s, NULL, 10)`: leading white space, an optional
sign, then the longest run of decimal digits; `0` when there is no digit.  A
value outside `long` is clamped, as glibc does (C leaves it undefined). -/
def atol (s : List Char) : Int :=
  let s1 := s.dropWhile isspace
  let n : Int := decimalValue ((dropSign s1).takeWhile isdigit)
  clampLong (if startsWith '-' s1 then -n else n)

/-- What `strtod` reads from a decimal floating constant: whether a mantissa
digit was found, the sign, the mantissa digits read as one integer, and the
power of ten that scales it. -/
structure Decimal where
  valid : Bool
  neg : Bool
  mant : Nat
  scale : Int
deriving DecidableEq

/-- Exponent part of a decimal floating constant: `e` or `E`, an optional sign
and at least one digit; `0` when the string does not start with such a part. -/
def exponentOf (s : List Char) : Int :=
  if startsWith 'e' s || startsWith 'E' s then
    let n : Int := decimalValue ((dropSign s.tail).takeWhile isdigit)
    if startsWith '-' s.tail then -n else n
  else 0

/-- Decimal scan of `strtod` once leading white space is skipped: an optional
sign, digits with an optional point, an optional exponent. -/
def scanNumber (s1 : List Char) : Decimal :=
  let s2 := dropSign s1
  let ip := s2.takeWhile isdigit
  let s3 := s2.dropWhile isdigit
  let fp := if startsWith '.' s3 then s3.tail.takeWhile isdigit else []
  let s4 := if startsWith '.' s3 then s3.tail.dropWhile isdigit else s3
  { valid := !(ip ++ fp).isEmpty
    neg := startsWith '-' s1
    mant := decimalValue (ip ++ fp)
    scale := exponentOf s4 - fp.length }

/-- Decimal scan of `strtod`: leading white space is skipped first. -/
def scanDecimal (s : List Char) : Decimal :=
  scanNumber (s.dropWhile isspace)

/-- Rational value of a scanned decimal; `0` when no number was found. -/
def Decimal.value (d : Decimal) : ℚ :=
  if d.valid then (if d.neg then -1 else 1) * (d.mant : ℚ) * (10 : ℚ) ^ d.scale else 0

/-- The function `atof`, that is `strtod(s, NULL)`, on decimal input, with the exact value of
the constant in place of its nearest `double`.  The infinity, NaN and
hexadecimal forms that `strtod` also accepts have no counterpart here. -/
def atof (s : List Char) : ℚ :=
  (scanDecimal s).value

/-- Conversion of a floating value to `long`: the fractional part is discarded
(truncation toward zero).  Outside the range of `long` C leaves the result
undefined; the model takes `LONG_MIN`, the result of the x86-64 conversion. -/
def toLong (q : ℚ) : Int :=
  let t : Int := if 0 ≤ q then ⌊q⌋ else ⌈q⌉
  if LONG_MIN ≤ t ∧ t ≤ LONG_MAX then t else LONG_MIN

/-- Two's-complement wrap-around of an integer into the range of `long`. -/
def wrapLong (v : Int) : Int :=
  (v + 9223372036854775808) % 18446744073709551616 - 9223372036854775808

/-- Characters that `fgets` stores when at most `n` characters fit: it stops
after a newline, after `n` characters, or at the end of the stream.  Returns
the characters stored and the rest of the stream. -/
def fgetsChars : Nat → List Char → List Char × List Char
  | 0, s => ([], s)
  | _ + 1, [] => ([], [])
  | n + 1, c :: s =>
    if c = '\n' then ([c], s) else ((fgetsChars n s).1.cons c, (fgetsChars n s).2)

/-- The call `fgets(line, size, file)`: `none` (`NULL`) at the end of the stream,
otherwise the string stored in `line` (at most `size - 1` characters) and the
rest of the stream. -/
def fgets (size : Nat) (stream : List Char) : Option (List Char × List Char) :=
  if stream = [] then none else some (fgetsChars (size - 1) stream)

/-- One call of `strtok` with the delimiter set `"\t"` on the text not yet
scanned: leading tabs are skipped; `none` (`NULL`) when nothing is left;
otherwise the token runs up to the next tab or the end, and scanning resumes
after that tab. -/
def strtok (s : List Char) : Option (List Char × List Char) :=
  let s1 := s.dropWhile (fun c => c == '\t')
  if s1.isEmpty then none
  else some (s1.takeWhile (fun c => c != '\t'), (s1.dropWhile (fun c => c != '\t')).tail)

/-! ## analyze_file -/

/-- The constant `line_sz`, 100. -/
def line_sz : Nat := 100

/-- The tokenising loop (lines 144-150): at most `n` more tokens are stored. -/
def tokenLoop : Nat → List Char → List (List Char)
  | 0, _ => []
  | n + 1, s =>
    match strtok s with
    | none => []
    | some (token, rest) => token :: tokenLoop n rest

/-- The tokens the loop stores for a line: `tokens[0 .. tokenIndex - 1]`. -/
def tokenize (line : List Char) : List (List Char) :=
  tokenLoop 9 line

/-- What one iteration of the `while` loop of `analyze_file` works on: the
string `fgets` stored in `line`, and the indeterminate content of the memory
the iteration may read before writing it, namely of the array `tokens` and of
the block that `malloc` returns. -/
structure LineRead where
  line : List Char
  stale : Nat → List Char
  block : climate_info

/-- The array `tokens` after the tokenising loop: slot `k` holds token `k` when
the loop stored one, and its indeterminate content otherwise. -/
def tokens (r : LineRead) (k : Nat) : List Char :=
  (tokenize r.line).getD k (r.stale k)

/-- Lines 152-165: the fields of the freshly allocated `state` that the parser
assigns; the other fields keep the content of the block. -/
def parse (tok : Nat → List Char) (block : climate_info) : climate_info :=
  { block with
    code := tok 0
    timeStamp := Int.tdiv (atol (tok 1)) 1000
    humidity := atof (tok 3)
    snowCount := toLong (atof (tok 4))
    cloudCover := atof (tok 5)
    lightningCount := atof (tok 6)
    surfaceTemp := atof (tok 8) * 9 / 5 - 459.67 }

/-- Lines 175-203: `state` is folded into the entry `e` with the same code. -/
def fold (e state : climate_info) : climate_info :=
  let n := (e.numRecords + 1) % ULONG_SIZE
  let lower := decide (state.surfaceTemp < e.minTemp)
  let higher := decide (state.surfaceTemp > e.maxTemp)
  { e with
    numRecords := n
    humidity := e.humidity + state.humidity
    cloudCover := e.cloudCover + state.cloudCover
    surfaceTemp := e.surfaceTemp + state.surfaceTemp
    lightningCount := e.lightningCount + state.lightningCount
    avgTemperature := (e.surfaceTemp + state.surfaceTemp) / n
    avgHumidity := (e.humidity + state.humidity) / n
    snowCount := wrapLong (e.snowCount + state.snowCount)
    minTimeStamp := if lower then state.timeStamp else e.minTimeStamp
    minTemp := if lower then state.surfaceTemp else e.minTemp
    maxTimeStamp := if higher then state.timeStamp else e.maxTimeStamp
    maxTemp := if higher then state.surfaceTemp else e.maxTemp
    avgCloudCover := (e.cloudCover + state.cloudCover) / n }

/-- Lines 167-206, the `for` loop over the slots: the first `NULL` slot
receives `state` with `numRecords = 1`; the first entry with the same code has
`state` folded into it; either ends the loop.  When the slots run out nothing
is stored. -/
def ingest : List (Option climate_info) → climate_info → List (Option climate_info)
  | [], _ => []
  | none :: rest, state => some { state with numRecords := 1 } :: rest
  | some e :: rest, state =>
    if e.code = state.code then some (fold e state) :: rest
    else some e :: ingest rest state

/-- The body of the `while` loop for one line. -/
def analyze_line (states : List (Option climate_info)) (r : LineRead) :
    List (Option climate_info) :=
  ingest states (parse (tokens r) r.block)

/-- The function `analyze_file`: the loop body runs once for each line that `fgets`
returns, on the same `states`. -/
def analyze_file (file : List LineRead) (states : List (Option climate_info)) :
    List (Option climate_info) :=
  file.foldl analyze_line states

/-- The loop of `main` over its arguments (lines 112-129) when every file can be
opened: `analyze_file` runs on each file in turn, on the same `states`. -/
def analyze_files (files : List (List LineRead)) (states : List (Option climate_info)) :
    List (Option climate_info) :=
  files.foldl (fun st file => analyze_file file st) states

/-- The table `states` as `main` creates it: `NUM_STATES` slots, all `NULL`. -/
def emptyStates : List (Option climate_info) :=
  List.replicate NUM_STATES none

/-- The observations ingested in order, starting from the empty table. -/
def ingestAll (obs : List climate_info) : List (Option climate_info) :=
  obs.foldl ingest emptyStates

/-- A block of memory whose bytes are all zero. -/
def zeroBlock : climate_info :=
  { code := [], numRecords := 0, humidity := 0, snowCount := 0, cloudCover := 0,
    pressure := 0, surfaceTemp := 0, avgTemperature := 0, avgHumidity := 0,
    maxTemp := 0, minTemp := 0, lightningCount := 0, avgCloudCover := 0,
    timeStamp := 0, maxTimeStamp := 0, minTimeStamp := 0 }

/-! ## Definitions used to state and prove the theorems -/

/-- Codes of a list of entries. -/
def codes (es : List climate_info) : List (List Char) :=
  es.map (fun e => e.code)

/-- The entries of `es` after `state` has been folded into the first one with
its code. -/
def foldInto : List climate_info → climate_info → List climate_info
  | [], _ => []
  | e :: es, state =>
    if e.code = state.code then fold e state :: es else e :: foldInto es state

/-- A table whose first slots hold `es` and whose `k` other slots are `NULL`. -/
def table (es : List climate_info) (k : Nat) : List (Option climate_info) :=
  es.map some ++ List.replicate k none

/-- What holds of the table `table es k` reached from the empty table by
ingesting `obs`. -/
structure Reached (obs es : List climate_info) (k : Nat) : Prop where
  nodup : (codes es).Nodup
  size : es.length + k = NUM_STATES
  count : ∀ e ∈ es,
    e.numRecords = obs.countP (fun o => decide (o.code = e.code)) % ULONG_SIZE
  seen : 0 < k → ∀ o ∈ obs, o.code ∈ codes es
  origin : ∀ e ∈ es, ∃ o ∈ obs, o.code = e.code

/-- A `WA` observation of 52.0 F at time 1000, in a block of zero bytes. -/
def wa52 : climate_info :=
  { zeroBlock with
    code := ['W', 'A'], timeStamp := 1000, humidity := 50, cloudCover := 10, surfaceTemp := 52 }

/-- A `WA` observation of 60.0 F at time 2000, in a block of zero bytes. -/
def wa60 : climate_info :=
  { zeroBlock with
    code := ['W', 'A'], timeStamp := 2000, humidity := 70, cloudCover := 30, surfaceTemp := 60 }

/-- A `CA` observation of 40.0 F at time 1500, in a block of zero bytes. -/
def ca40 : climate_info :=
  { zeroBlock with
    code := ['C', 'A'], timeStamp := 1500, humidity := 93, cloudCover := 100, surfaceTemp := 40 }

/-- A line of the file with nine fields, 300 K at 1000000 ms. -/
def lineWA : List Char :=
  "WA\t1000000\t9prc\t50.0\t0.0\t10.0\t0.0\t95644.0\t300.0\n".toList

/-- The fields of an entry that do not depend on the order of ingestion:
`numRecords`, `avgHumidity`, `avgTemperature`, `avgCloudCover`, `snowCount` and
`lightningCount`. -/
def stats (e : climate_info) : Nat × ℚ × ℚ × ℚ × Int × ℚ :=
  (e.numRecords, e.avgHumidity, e.avgTemperature, e.avgCloudCover, e.snowCount,
    e.lightningCount)

/-- The compared fields as determined by the whole list of observations of one
state, when there are at least two of them. -/
def totals (l : List climate_info) : Nat × ℚ × ℚ × ℚ × Int × ℚ :=
  (l.length % ULONG_SIZE,
    (l.map (fun o => o.humidity)).sum / ((l.length % ULONG_SIZE : Nat) : ℚ),
    (l.map (fun o => o.surfaceTemp)).sum / ((l.length % ULONG_SIZE : Nat) : ℚ),
    (l.map (fun o => o.cloudCover)).sum / ((l.length % ULONG_SIZE : Nat) : ℚ),
    wrapLong (l.map (fun o => o.snowCount)).sum,
    (l.map (fun o => o.lightningCount)).sum)

/-- Decimal text of an integer: a minus sign when negative, then the decimal
digits of its absolute value. -/
def decimalString (z : Int) : List Char :=
  if z < 0 then '-' :: Nat.toDigits 10 z.natAbs else Nat.toDigits 10 z.natAbs

/-- Fields joined by single tab characters. -/
def joinTabs : List (List Char) → List Char
  | [] => []
  | [f] => f
  | f :: g :: fs => f ++ '\t' :: joinTabs (g :: fs)

/-- A line of the file made of the given fields: the fields separated by tabs,
ended by a newline. -/
def tdvLine (fs : List (List Char)) : List Char :=
  joinTabs fs ++ ['\n']

/-- A line of nine fields whose snow field is `0.5`. -/
def lineSnow : List Char :=
  tdvLine ["CA".toList, "1000".toList, "9prc".toList, "93.0".toList, "0.5".toList,
    "100.0".toList, "0.0".toList, "95644.0".toList, "277.58716".toList]

/-- A line of nine fields and 107 characters: its geohash field has 61. -/
def longLine : List Char :=
  tdvLine ["CA".toList, "1000".toList, List.replicate 61 'g', "93.0".toList, "0.0".toList,
    "100.0".toList, "0.0".toList, "95644.0".toList, "277.58716".toList]

/-- A line with five fields only. -/
def lineShort : List Char :=
  "WA\t1428300000000\t9prc\t93.0\t0.0\n".toList

/-- A line of nine fields with timestamp 1999 ms and temperature 273.15 K. -/
def lineFreezing : List Char :=
  "WA\t1999\t9prc\t50.0\t0.0\t10.0\t0.0\t95644.0\t273.15\n".toList

/-- The distinct codes of a sequence, in the order of their first occurrence. -/
def firstSeen (cs : List (List Char)) : List (List Char) :=
  cs.foldl (fun acc c => if c ∈ acc then acc else acc ++ [c]) []

/-- The first loop of `print_report` (lines 214-219): the codes printed after
"States found:", those of the slots that are not `NULL`, in slot order. -/
def statesFound (states : List (Option climate_info)) : List (List Char) :=
  states.filterMap (fun s => s.map (fun e => e.code))

/-- An observation with the given code, in a block of zero bytes. -/
def obsOf (c : List Char) : climate_info :=
  { zeroBlock with code := c }

/-- Fifty-one different two-character codes: `A0` to `A9`, `B0` to `B9`, and so
on up to `F0`. -/
def manyCodes : List (List Char) :=
  (List.range 51).map (fun i => [Char.ofNat (65 + i / 10), Char.ofNat (48 + i % 10)])

/-- The `WA` entry that ingesting `wa52` into the empty table creates. -/
def waEntry : climate_info :=
  { wa52 with numRecords := 1 }

/-- The pieces obtained by splitting a line at each tab character: a line with
`n` tabs has `n + 1` pieces, some of which may be empty. -/
def splitTabs : List Char → List (List Char)
  | [] => [[]]
  | c :: s =>
    if c = '\t' then [] :: splitTabs s
    else
      match splitTabs s with
      | [] => [[c]]
      | p :: ps => (c :: p) :: ps

/-- The pieces of a line that are not empty. -/
def nonEmptyPieces (line : List Char) : List (List Char) :=
  (splitTabs line).filter (fun p => !p.isEmpty)

/-- A line whose geohash field is empty: two adjacent tabs after field 1. -/
def lineEmptyField : List Char :=
  "CA\t1000\t\t93.0\t0.0\t100.0\t0.0\t95644.0\t277.58716\n".toList

/-- A line that starts with a tab: its piece 0 is empty. -/
def lineLeadingTab : List Char :=
  "\tCA\t1000\t9prc\t93.0\t0.0\t100.0\t0.0\t95644.0\t277.58716\n".toList

/-- Three `WA` lines whose snow fields are `0.5`, `1` and `1.9`. -/
def snowLines : List LineRead :=
  [⟨"WA\t1000\t9prc\t50.0\t0.5\t10.0\t0.0\t95644.0\t300.0\n".toList, fun _ => [], zeroBlock⟩,
    ⟨"WA\t2000\t9prc\t50.0\t1\t10.0\t0.0\t95644.0\t300.0\n".toList, fun _ => [], zeroBlock⟩,
    ⟨"WA\t3000\t9prc\t50.0\t1.9\t10.0\t0.0\t95644.0\t300.0\n".toList, fun _ => [], zeroBlock⟩]

/-- What the program writes, in order, on its two output streams. -/
inductive Output where
  | usage : Output
  | openError (path : List Char) : Output
  | opening (path : List Char) : Output
  | report (found : List (List Char)) (entries : List climate_info) : Output

/-- The exit status `EXIT_FAILURE`. -/
def EXIT_FAILURE : Int := 1

/-- The function `print_report`: the codes of the occupied slots after
"States found:", then the statistics of each occupied slot, in slot order. -/
def print_report (states : List (Option climate_info)) : Output :=
  Output.report (statesFound states) (states.filterMap id)

/-- The loop of `main` over `argv[1 ..]` (lines 112-129) followed by the report
(lines 132-133).  `fopen` gives the lines of a file, or `none` when it cannot be
opened: the function then returns `EXIT_FAILURE` at once (lines 119-123). -/
def mainLoop (fopen : List Char → Option (List LineRead)) :
    List (List Char) → List (Option climate_info) → List Output → Int × List Output
  | [], states, out => (0, out ++ [print_report states])
  | path :: paths, states, out =>
    match fopen path with
    | none => (EXIT_FAILURE, out ++ [Output.openError path])
    | some file => mainLoop fopen paths (analyze_file file states) (out ++ [Output.opening path])

/-- The function `main`: exit status and output for the arguments `argv`
(`argv[0]` is the program name). -/
def main (fopen : List Char → Option (List LineRead)) (argv : List (List Char)) :
    Int × List Output :=
  if argv.length < 1 then (EXIT_FAILURE, [Output.usage])
  else mainLoop fopen argv.tail emptyStates []

/-- A file system with the single file `data_wa.tdv`. -/
def oneFile (file : List LineRead) (path : List Char) : Option (List LineRead) :=
  if path = "data_wa.tdv".toList then some file else none

/-! ## Lemmas and theorems -/

theorem fold_code (e state : climate_info) : (fold e state).code = e.code := rfl

theorem codes_foldInto (es : List climate_info) (state : climate_info) :
    codes (foldInto es state) = codes es := by
  induction es with
  | nil => rfl
  | cons e es ih =>
    unfold foldInto
    split
    · simp [codes, fold_code]
    · simpa [codes] using ih

theorem length_foldInto (es : List climate_info) (state : climate_info) :
    (foldInto es state).length = es.length := by
  simpa [codes] using congrArg List.length (codes_foldInto es state)

theorem ingest_table_mem (es : List climate_info) (k : Nat) (state : climate_info)
    (h : state.code ∈ codes es) :
    ingest (table es k) state = table (foldInto es state) k := by
  induction es with
  | nil => simp [codes] at h
  | cons e es ih =>
    by_cases hc : e.code = state.code
    · simp [table, ingest, foldInto, hc]
    · have h2 : state.code ∈ codes es := by
        simp only [codes, List.map_cons, List.mem_cons] at h
        rcases h with h | h
        · exact absurd h.symm hc
        · exact h
      have := ih h2
      simp only [table] at this
      simp [table, ingest, foldInto, hc, this]

theorem ingest_table_new (es : List climate_info) (k : Nat) (state : climate_info)
    (h : state.code ∉ codes es) :
    ingest (table es (k + 1)) state = table (es ++ [{ state with numRecords := 1 }]) k := by
  induction es with
  | nil => simp [table, ingest, List.replicate_succ]
  | cons e es ih =>
    have hc : ¬ e.code = state.code := by
      intro hc; apply h; simp [codes, hc]
    have h2 : state.code ∉ codes es := by
      intro h2; apply h; simp only [codes, List.map_cons, List.mem_cons]; exact Or.inr h2
    have := ih h2
    simp only [table] at this
    simp [table, ingest, hc, this]

theorem ingest_table_full (es : List climate_info) (state : climate_info)
    (h : state.code ∉ codes es) :
    ingest (table es 0) state = table es 0 := by
  induction es with
  | nil => simp [table, ingest]
  | cons e es ih =>
    have hc : ¬ e.code = state.code := by
      intro hc; apply h; simp [codes, hc]
    have h2 : state.code ∉ codes es := by
      intro h2; apply h; simp only [codes, List.map_cons, List.mem_cons]; exact Or.inr h2
    have := ih h2
    simp only [table, List.replicate_zero, List.append_nil] at this
    simp [table, ingest, hc, this]

theorem mem_table (es : List climate_info) (k : Nat) (e : climate_info) :
    some e ∈ table es k ↔ e ∈ es := by
  simp [table]

theorem getElem?_table (es : List climate_info) (k i : Nat) (a : climate_info) :
    (table es k)[i]? = some (some a) ↔ es[i]? = some a := by
  unfold table
  by_cases h : i < es.length
  · rw [List.getElem?_append_left (by simpa using h)]
    simp [List.getElem?_map, h]
  · have h2 : es.length ≤ i := Nat.le_of_not_lt h
    rw [List.getElem?_append_right (by simpa using h2)]
    rw [List.getElem?_eq_none h2]
    simp [List.getElem?_replicate]

theorem mem_foldInto (es : List climate_info) (state e2 : climate_info)
    (hn : (codes es).Nodup) (h : e2 ∈ foldInto es state) :
    (∃ e ∈ es, e.code = state.code ∧ e2 = fold e state) ∨
      (e2 ∈ es ∧ e2.code ≠ state.code) := by
  induction es with
  | nil => simp [foldInto] at h
  | cons e es ih =>
    have hn2 : (codes es).Nodup := by
      simp only [codes, List.map_cons, List.nodup_cons] at hn; exact hn.2
    have hne : e.code ∉ codes es := by
      simp only [codes, List.map_cons, List.nodup_cons] at hn; exact hn.1
    by_cases hc : e.code = state.code
    · simp only [foldInto, hc, if_true, List.mem_cons] at h
      rcases h with h | h
      · exact Or.inl ⟨e, by simp, hc, h⟩
      · refine Or.inr ⟨by simp [h], ?_⟩
        intro h3
        apply hne
        rw [hc, ← h3]
        exact List.mem_map_of_mem _ h
    · simp only [foldInto, hc, if_false, List.mem_cons] at h
      rcases h with h | h
      · exact Or.inr ⟨by simp [h], by rw [h]; exact hc⟩
      · rcases ih hn2 h with ⟨e3, h3, h4, h5⟩ | ⟨h3, h4⟩
        · exact Or.inl ⟨e3, by simp [h3], h4, h5⟩
        · exact Or.inr ⟨by simp [h3], h4⟩

theorem countP_snoc_same (obs : List climate_info) (state : climate_info) (c : List Char)
    (h : state.code = c) :
    (obs ++ [state]).countP (fun o => decide (o.code = c)) =
      obs.countP (fun o => decide (o.code = c)) + 1 := by
  rw [List.countP_append]
  simp [List.countP_cons, h]

theorem countP_snoc_other (obs : List climate_info) (state : climate_info) (c : List Char)
    (h : state.code ≠ c) :
    (obs ++ [state]).countP (fun o => decide (o.code = c)) =
      obs.countP (fun o => decide (o.code = c)) := by
  rw [List.countP_append]
  simp [List.countP_cons, h]

theorem reached_nil : Reached [] [] NUM_STATES where
  nodup := by simp [codes]
  size := by simp
  count := by simp
  seen := by simp
  origin := by simp

theorem reached_step (obs es : List climate_info) (k : Nat) (state : climate_info)
    (h : Reached obs es k) :
    ∃ es2 k2, ingest (table es k) state = table es2 k2 ∧ Reached (obs ++ [state]) es2 k2 := by
  by_cases hm : state.code ∈ codes es
  · refine ⟨foldInto es state, k, ingest_table_mem es k state hm, ?_⟩
    refine ⟨?_, ?_, ?_, ?_, ?_⟩
    · rw [codes_foldInto]; exact h.nodup
    · rw [length_foldInto]; exact h.size
    · intro e2 he2
      rcases mem_foldInto es state e2 h.nodup he2 with ⟨e, he, hc, rfl⟩ | ⟨he, hc⟩
      · rw [fold_code, countP_snoc_same obs state e.code hc.symm]
        show (e.numRecords + 1) % ULONG_SIZE = _
        rw [h.count e he]
        simp only [ULONG_SIZE]
        omega
      · rw [countP_snoc_other obs state e2.code (fun h3 => hc h3.symm)]
        exact h.count e2 he
    · intro hk o ho
      rw [codes_foldInto]
      rcases List.mem_append.1 ho with ho | ho
      · exact h.seen hk o ho
      · simp only [List.mem_singleton] at ho; rw [ho]; exact hm
    · intro e2 he2
      rcases mem_foldInto es state e2 h.nodup he2 with ⟨e, he, hc, rfl⟩ | ⟨he, _⟩
      · exact ⟨state, by simp, hc.symm⟩
      · rcases h.origin e2 he with ⟨o, ho, hoc⟩
        exact ⟨o, by simp [ho], hoc⟩
  · have hne : ∀ e ∈ es, state.code ≠ e.code := by
      intro e he h3
      apply hm
      rw [h3]
      exact List.mem_map_of_mem _ he
    cases k with
    | zero =>
      refine ⟨es, 0, ingest_table_full es state hm, ?_⟩
      refine ⟨h.nodup, h.size, ?_, ?_, ?_⟩
      · intro e he
        rw [countP_snoc_other obs state e.code (hne e he)]
        exact h.count e he
      · intro hk; exact absurd hk (Nat.lt_irrefl 0)
      · intro e he
        rcases h.origin e he with ⟨o, ho, hoc⟩
        exact ⟨o, by simp [ho], hoc⟩
    | succ k =>
      refine ⟨es ++ [{ state with numRecords := 1 }], k, ingest_table_new es k state hm, ?_⟩
      refine ⟨?_, ?_, ?_, ?_, ?_⟩
      · simp only [codes, List.map_append, List.map_cons, List.map_nil]
        refine List.Nodup.append h.nodup (List.nodup_singleton _) ?_
        intro c hc1 hc2
        simp only [List.mem_singleton] at hc2
        exact hm (hc2 ▸ hc1)
      · have := h.size
        simp only [List.length_append, List.length_singleton]
        omega
      · intro e he
        rcases List.mem_append.1 he with he | he
        · rw [countP_snoc_other obs state e.code (hne e he)]
          exact h.count e he
        · simp only [List.mem_singleton] at he
          subst he
          rw [countP_snoc_same obs state _ rfl]
          have h0 : obs.countP (fun o => decide (o.code = state.code)) = 0 := by
            rw [List.countP_eq_zero]
            intro o ho
            have := h.seen (Nat.succ_pos k) o ho
            simp only [decide_eq_true_eq]
            intro h3
            exact hm (h3 ▸ this)
          show 1 = _
          rw [h0]
          simp [ULONG_SIZE]
      · intro hk o ho
        simp only [codes, List.map_append, List.map_cons, List.map_nil, List.mem_append,
          List.mem_singleton]
        rcases List.mem_append.1 ho with ho | ho
        · exact Or.inl (h.seen (Nat.succ_pos k) o ho)
        · simp only [List.mem_singleton] at ho; exact Or.inr (by rw [ho])
      · intro e he
        rcases List.mem_append.1 he with he | he
        · rcases h.origin e he with ⟨o, ho, hoc⟩
          exact ⟨o, by simp [ho], hoc⟩
        · simp only [List.mem_singleton] at he
          exact ⟨state, by simp, by rw [he]⟩

theorem reached_ingestAll (obs : List climate_info) :
    ∃ es k, ingestAll obs = table es k ∧ Reached obs es k := by
  induction obs using List.reverseRecOn with
  | nil => exact ⟨[], NUM_STATES, by simp [ingestAll, emptyStates, table], reached_nil⟩
  | append_singleton obs state ih =>
    rcases ih with ⟨es, k, ht, hr⟩
    rcases reached_step obs es k state hr with ⟨es2, k2, ht2, hr2⟩
    refine ⟨es2, k2, ?_, hr2⟩
    simp only [ingestAll, List.foldl_append, List.foldl_cons, List.foldl_nil] at ht ⊢
    rw [ht, ht2]

theorem tokenize_lineWA :
    tokenize lineWA = ["WA".toList, "1000000".toList, "9prc".toList, "50.0".toList,
      "0.0".toList, "10.0".toList, "0.0".toList, "95644.0".toList, "300.0\n".toList] := by
  decide

theorem toLong_zero : toLong 0 = 0 := by
  simp [toLong, LONG_MIN, LONG_MAX]

theorem parse_lineWA (stale : Nat → List Char) (block : climate_info) :
    parse (tokens ⟨lineWA, stale, block⟩) block =
      { block with
        code := ['W', 'A'], timeStamp := 1000, humidity := 50, snowCount := 0,
        cloudCover := 10, lightningCount := 0, surfaceTemp := 80.33 } := by
  have h1 : atol "1000000".toList = 1000000 := by decide
  have h3 : scanDecimal "50.0".toList = ⟨true, false, 500, -1⟩ := by decide
  have h4 : scanDecimal "0.0".toList = ⟨true, false, 0, -1⟩ := by decide
  have h5 : scanDecimal "10.0".toList = ⟨true, false, 100, -1⟩ := by decide
  have h8 : scanDecimal "300.0\n".toList = ⟨true, false, 3000, -1⟩ := by decide
  have a3 : atof "50.0".toList = 50 := by
    simp only [atof, h3, Decimal.value]; norm_num
  have a4 : atof "0.0".toList = 0 := by
    simp only [atof, h4, Decimal.value]; norm_num
  have a5 : atof "10.0".toList = 10 := by
    simp only [atof, h5, Decimal.value]; norm_num
  have a8 : atof "300.0\n".toList * 9 / 5 - 459.67 = 80.33 := by
    simp only [atof, h8, Decimal.value]; norm_num
  have hd : Int.tdiv 1000000 1000 = 1000 := by decide
  simp only [parse, tokens, tokenize_lineWA, List.getD_cons_succ, List.getD_cons_zero, h1, a3,
    a4, a5, a8, toLong_zero, hd]
  rfl

/-- C1 (evaluation of the code): whatever the block returned by `malloc`
contained, ingesting the line `lineWA` (80.33 F at time 1000) into the empty
table stores an entry with `numRecords = 1` and the observation's humidity,
cloud cover and temperature as sums, but its `maxTemp`, `minTemp`,
`maxTimeStamp` and `minTimeStamp` are those of the block: the code never
assigns them when it creates an entry. -/
theorem created_entry_extrema_from_block (stale : Nat → List Char) (block : climate_info) :
    ∃ e rest, analyze_line emptyStates ⟨lineWA, stale, block⟩ = some e :: rest ∧
      e.numRecords = 1 ∧ e.humidity = 50 ∧ e.cloudCover = 10 ∧
      e.surfaceTemp = 80.33 ∧ e.timeStamp = 1000 ∧
      e.maxTemp = block.maxTemp ∧ e.minTemp = block.minTemp ∧
      e.maxTimeStamp = block.maxTimeStamp ∧ e.minTimeStamp = block.minTimeStamp := by
  refine ⟨{ parse (tokens ⟨lineWA, stale, block⟩) block with numRecords := 1 },
    List.replicate 49 none, rfl, rfl, ?_⟩
  rw [parse_lineWA]
  exact ⟨rfl, rfl, rfl, rfl, rfl, rfl, rfl, rfl⟩

/-- C2 (evaluation of the code): two `WA` observations of 52.0 F (time 1000)
then 60.0 F (time 2000), each in a zeroed block, ingested from the empty table,
give an entry with `numRecords = 2`, `avgTemperature = 56`, `maxTemp = 60` at
time 2000, but `minTemp = 0` with `minTimeStamp = 0`: the first observation's
temperature never enters the extrema. -/
theorem extrema_miss_first_observation :
    ∃ e rest, ingestAll [wa52, wa60] = some e :: rest ∧
      e.numRecords = 2 ∧ e.avgTemperature = 56 ∧
      e.maxTemp = 60 ∧ e.maxTimeStamp = 2000 ∧
      e.minTemp = 0 ∧ e.minTimeStamp = 0 ∧ e.minTemp ≠ 52 := by
  refine ⟨fold { wa52 with numRecords := 1 } wa60, List.replicate 49 none, rfl, rfl, ?_, ?_, ?_,
    ?_, ?_, ?_⟩
  · simp [fold, wa52, wa60, zeroBlock, ULONG_SIZE]; norm_num
  · simp [fold, wa52, wa60, zeroBlock]
  · simp [fold, wa52, wa60, zeroBlock]
  · simp [fold, wa52, wa60, zeroBlock]
  · simp [fold, wa52, wa60, zeroBlock]
  · simp [fold, wa52, wa60, zeroBlock]; norm_num

/-- C3: for every sequence of fewer than `2 ^ 64` observations ingested from the
empty table, every entry of the resulting table has `numRecords` equal to the
number of observations of the sequence that carry the entry's state code. -/
theorem numRecords_eq_count (obs : List climate_info) (hlen : obs.length < ULONG_SIZE)
    (e : climate_info) (he : some e ∈ ingestAll obs) :
    e.numRecords = obs.countP (fun o => decide (o.code = e.code)) := by
  rcases reached_ingestAll obs with ⟨es, k, ht, hr⟩
  rw [ht, mem_table] at he
  rw [hr.count e he]
  apply Nat.mod_eq_of_lt
  exact Nat.lt_of_le_of_lt (List.countP_le_length _) hlen

/-- Three observations, two of them for `WA`: the `WA` entry counts 2. -/
theorem numRecords_eq_count_witness :
    [wa52, ca40, wa60].length < ULONG_SIZE ∧
      some (fold { wa52 with numRecords := 1 } wa60) ∈ ingestAll [wa52, ca40, wa60] ∧
      (fold { wa52 with numRecords := 1 } wa60).numRecords =
        [wa52, ca40, wa60].countP
          (fun o => decide (o.code = (fold { wa52 with numRecords := 1 } wa60).code)) :=
  have h1 : [wa52, ca40, wa60].length < ULONG_SIZE := by decide
  have h2 : some (fold { wa52 with numRecords := 1 } wa60) ∈ ingestAll [wa52, ca40, wa60] :=
    List.mem_cons_self _ (some { ca40 with numRecords := 1 } :: List.replicate 48 none)
  ⟨h1, h2, numRecords_eq_count [wa52, ca40, wa60] h1 _ h2⟩

/-- C4 (evaluation of the code): after a single `WA` observation (humidity 50,
cloud cover 10, 52.0 F, in a zeroed block) ingested from the empty table, the
entry has `numRecords = 1` and sums 50, 10 and 52, but `avgHumidity`,
`avgTemperature` and `avgCloudCover` are 0, the content of the block: the
averages are assigned only when a further observation is folded in. -/
theorem averages_unset_after_first_observation :
    ∃ e rest, ingestAll [wa52] = some e :: rest ∧ e.numRecords = 1 ∧
      e.humidity = 50 ∧ e.surfaceTemp = 52 ∧ e.cloudCover = 10 ∧
      e.avgHumidity = 0 ∧ e.avgTemperature = 0 ∧ e.avgCloudCover = 0 ∧
      e.avgHumidity ≠ e.humidity / e.numRecords ∧
      e.avgTemperature ≠ e.surfaceTemp / e.numRecords ∧
      e.avgCloudCover ≠ e.cloudCover / e.numRecords := by
  refine ⟨{ wa52 with numRecords := 1 }, List.replicate 49 none, rfl, rfl, rfl, rfl, rfl, rfl,
    rfl, rfl, ?_, ?_, ?_⟩
  · simp [wa52, zeroBlock]
  · simp [wa52, zeroBlock]
  · simp [wa52, zeroBlock]

/-- C7: in the table reached from the empty table by ingesting any sequence of
observations, the table still has `NUM_STATES` slots, no two slots hold entries
with the same state code, and the occupied slots form a prefix without gap:
every slot before an occupied slot is occupied. -/
theorem codes_unique_no_gap (obs : List climate_info) :
    (ingestAll obs).length = NUM_STATES ∧
      (∀ (i j : Nat) (a b : climate_info), (ingestAll obs)[i]? = some (some a) →
        (ingestAll obs)[j]? = some (some b) → a.code = b.code → i = j) ∧
      (∀ (i j : Nat) (b : climate_info), i ≤ j → (ingestAll obs)[j]? = some (some b) →
        ∃ a, (ingestAll obs)[i]? = some (some a)) := by
  rcases reached_ingestAll obs with ⟨es, k, ht, hr⟩
  rw [ht]
  refine ⟨?_, ?_, ?_⟩
  · simpa [table] using hr.size
  · intro i j a b hi hj hab
    rw [getElem?_table] at hi hj
    have hi2 : (codes es)[i]? = some a.code := by simp [codes, List.getElem?_map, hi]
    have hj2 : (codes es)[j]? = some b.code := by simp [codes, List.getElem?_map, hj]
    have hlt : i < (codes es).length := by
      rcases List.getElem?_eq_some.1 hi2 with ⟨h, _⟩
      exact h
    exact List.getElem?_inj hlt hr.nodup (by rw [hi2, hj2, hab])
  · intro i j b hij hj
    rw [getElem?_table] at hj
    rcases List.getElem?_eq_some.1 hj with ⟨h, _⟩
    have hi : i < es.length := Nat.lt_of_le_of_lt hij h
    exact ⟨es[i], (getElem?_table es k i _).2 (List.getElem?_eq_getElem hi)⟩

theorem foldl_fold_code (l : List climate_info) (e : climate_info) :
    (l.foldl fold e).code = e.code := by
  induction l generalizing e with
  | nil => rfl
  | cons o l ih => simp only [List.foldl_cons]; rw [ih, fold_code]

theorem ingest_same_code (e state : climate_info) (tl : List (Option climate_info))
    (h : e.code = state.code) :
    ingest (some e :: tl) state = some (fold e state) :: tl := by
  simp only [ingest, h, if_true]

theorem foldl_ingest_same_code (l : List climate_info) (e : climate_info)
    (tl : List (Option climate_info)) (h : ∀ o ∈ l, o.code = e.code) :
    l.foldl ingest (some e :: tl) = some (l.foldl fold e) :: tl := by
  induction l generalizing e with
  | nil => rfl
  | cons o l ih =>
    have ho : e.code = o.code := (h o (by simp)).symm
    simp only [List.foldl_cons, ingest, ho, if_true]
    apply ih
    intro o2 ho2
    rw [fold_code]
    exact h o2 (by simp [ho2])

theorem ingestAll_same_code (o : climate_info) (l : List climate_info)
    (h : ∀ o2 ∈ l, o2.code = o.code) :
    ingestAll (o :: l) =
      some (l.foldl fold { o with numRecords := 1 }) :: List.replicate 49 none := by
  have : ingestAll (o :: l) =
      l.foldl ingest (some { o with numRecords := 1 } :: List.replicate 49 none) := rfl
  rw [this]
  exact foldl_ingest_same_code l _ _ h

theorem wrapLong_add_congr (a b c : Int) (h : wrapLong a = wrapLong b) :
    wrapLong (a + c) = wrapLong (b + c) := by
  simp only [wrapLong] at *
  omega

theorem wrapLong_wrapLong (a : Int) : wrapLong (wrapLong a) = wrapLong a := by
  simp only [wrapLong]
  omega

theorem foldl_fold_sums (l : List climate_info) (e : climate_info) :
    (l.foldl fold e).humidity = e.humidity + (l.map (fun o => o.humidity)).sum ∧
    (l.foldl fold e).surfaceTemp = e.surfaceTemp + (l.map (fun o => o.surfaceTemp)).sum ∧
    (l.foldl fold e).cloudCover = e.cloudCover + (l.map (fun o => o.cloudCover)).sum ∧
    (l.foldl fold e).lightningCount =
      e.lightningCount + (l.map (fun o => o.lightningCount)).sum ∧
    (l.foldl fold e).numRecords % ULONG_SIZE = (e.numRecords + l.length) % ULONG_SIZE ∧
    wrapLong (l.foldl fold e).snowCount =
      wrapLong (e.snowCount + (l.map (fun o => o.snowCount)).sum) := by
  induction l generalizing e with
  | nil => simp
  | cons o l ih =>
    rcases ih (fold e o) with ⟨h1, h2, h3, h4, h5, h6⟩
    simp only [List.foldl_cons, List.map_cons, List.sum_cons, List.length_cons]
    refine ⟨?_, ?_, ?_, ?_, ?_, ?_⟩
    · rw [h1]; simp only [fold]; ring
    · rw [h2]; simp only [fold]; ring
    · rw [h3]; simp only [fold]; ring
    · rw [h4]; simp only [fold]; ring
    · rw [h5]
      show ((e.numRecords + 1) % ULONG_SIZE + l.length) % ULONG_SIZE = _
      simp only [ULONG_SIZE]
      omega
    · rw [h6]
      show wrapLong (wrapLong (e.snowCount + o.snowCount) + _) = _
      rw [wrapLong_add_congr _ _ _ (wrapLong_wrapLong _)]
      congr 1
      ring

theorem stats_foldl_fold (o : climate_info) (l : List climate_info) (x : climate_info) :
    stats ((l ++ [x]).foldl fold { o with numRecords := 1 }) = totals (o :: (l ++ [x])) := by
  rcases foldl_fold_sums l { o with numRecords := 1 } with ⟨h1, h2, h3, h4, h5, h6⟩
  have hn : ((l.foldl fold { o with numRecords := 1 }).numRecords + 1) % ULONG_SIZE =
      (o :: (l ++ [x])).length % ULONG_SIZE := by
    simp only [List.length_cons, List.length_append, List.length_nil] at h5 ⊢
    simp only [ULONG_SIZE] at h5 ⊢
    omega
  simp only [List.foldl_append, List.foldl_cons, List.foldl_nil, stats, totals, fold]
  rw [hn, h1, h2, h3, h4]
  simp only [List.map_cons, List.map_append, List.map_nil, List.sum_cons, List.sum_append,
    List.sum_nil, add_zero]
  refine Prod.ext rfl (Prod.ext ?_ (Prod.ext ?_ (Prod.ext ?_ (Prod.ext ?_ ?_))))
  · simp only; ring
  · simp only; ring
  · simp only; ring
  · simp only
    rw [wrapLong_add_congr _ _ _ h6]
    congr 1
    ring
  · simp only; ring

theorem totals_perm (l1 l2 : List climate_info) (h : l1.Perm l2) : totals l1 = totals l2 := by
  simp only [totals, h.length_eq, (h.map _).sum_eq]

theorem stats_ingestAll (o : climate_info) (l : List climate_info) (x : climate_info)
    (h : ∀ o2 ∈ l ++ [x], o2.code = o.code) :
    (ingestAll (o :: (l ++ [x]))).map (Option.map stats) =
      some (totals (o :: (l ++ [x]))) :: List.replicate 49 none := by
  rw [ingestAll_same_code o _ h, List.map_cons, Option.map_some', stats_foldl_fold]
  simp

/-- C5: for every list of observations that all carry the same state code and
every permutation of it, ingesting the list and ingesting the permutation from
the empty table give tables that agree, slot by slot, on `numRecords`,
`avgHumidity`, `avgTemperature`, `avgCloudCover`, `snowCount` and
`lightningCount` (arithmetic on the floating fields being exact). -/
theorem stats_order_independent (c : List Char) (l1 l2 : List climate_info)
    (hperm : l1.Perm l2) (hcode : ∀ o ∈ l1, o.code = c) :
    (ingestAll l1).map (Option.map stats) = (ingestAll l2).map (Option.map stats) := by
  have hcode2 : ∀ o ∈ l2, o.code = c := fun o ho => hcode o (hperm.mem_iff.2 ho)
  rcases l1 with _ | ⟨o1, r1⟩
  · rw [List.nil_perm.1 hperm]
  rcases l2 with _ | ⟨o2, r2⟩
  · exact absurd hperm.length_eq (by simp)
  rcases List.eq_nil_or_concat r1 with h1 | ⟨i1, x1, h1⟩
  · subst h1
    rw [List.singleton_perm.1 hperm]
  rcases List.eq_nil_or_concat r2 with h2 | ⟨i2, x2, h2⟩
  · subst h2
    rw [List.perm_singleton.1 hperm]
  subst h1 h2
  simp only [List.concat_eq_append] at hperm hcode hcode2 ⊢
  rw [stats_ingestAll o1 i1 x1, stats_ingestAll o2 i2 x2, totals_perm _ _ hperm]
  · intro o ho; rw [hcode2 o (by simp at ho ⊢; tauto), hcode2 o2 (by simp)]
  · intro o ho; rw [hcode o (by simp at ho ⊢; tauto), hcode o1 (by simp)]

/-- The two `WA` observations in either order. -/
theorem stats_order_independent_witness :
    [wa52, wa60].Perm [wa60, wa52] ∧ (∀ o ∈ [wa52, wa60], o.code = ['W', 'A']) ∧
      (ingestAll [wa52, wa60]).map (Option.map stats) =
        (ingestAll [wa60, wa52]).map (Option.map stats) :=
  have h1 : [wa52, wa60].Perm [wa60, wa52] := List.Perm.swap wa60 wa52 []
  have h2 : ∀ o ∈ [wa52, wa60], o.code = ['W', 'A'] := by
    intro o ho
    simp only [List.mem_cons, List.mem_singleton, List.not_mem_nil, or_false] at ho
    rcases ho with rfl | rfl <;> rfl
  ⟨h1, h2, stats_order_independent _ _ _ h1 h2⟩

theorem analyze_files_join (files : List (List LineRead))
    (states : List (Option climate_info)) :
    analyze_files files states = analyze_file files.flatten states := by
  induction files generalizing states with
  | nil => rfl
  | cons file files ih =>
    have h : analyze_files (file :: files) states =
        analyze_files files (analyze_file file states) := rfl
    rw [h, ih, List.flatten_cons]
    simp only [analyze_file, List.foldl_append]

/-- C6: for every table and every two lists of lines `A` and `B`, running
`analyze_file` on `A` and then on `B` against the same table gives the same
table as running it once on `A` followed by `B`; nothing is reset between
files.  The same holds of any number of files that `main` analyses in turn:
the final table is that of one run over all their lines. -/
theorem analyze_file_append (states : List (Option climate_info)) (A B : List LineRead)
    (files : List (List LineRead)) :
    analyze_file B (analyze_file A states) = analyze_file (A ++ B) states ∧
      analyze_files [A, B] states = analyze_file (A ++ B) states ∧
      analyze_files files states = analyze_file files.flatten states := by
  refine ⟨?_, ?_, analyze_files_join files states⟩
  · simp only [analyze_file, List.foldl_append]
  · rw [analyze_files_join]
    simp

theorem digitChar_spec : ∀ d < 10, isdigit (Nat.digitChar d) = true ∧
    digitVal (Nat.digitChar d) = d := by
  decide

theorem isdigit_not_special (c : Char) (h : isdigit c = true) :
    isspace c = false ∧ c ≠ '-' ∧ c ≠ '+' := by
  refine ⟨?_, ?_, ?_⟩
  · cases hs : isspace c with
    | false => rfl
    | true =>
      simp only [isspace, Bool.or_eq_true, beq_iff_eq] at hs
      rcases hs with ((((hs | hs) | hs) | hs) | hs) | hs <;> subst hs <;> exact absurd h (by decide)
  · rintro rfl; exact absurd h (by decide)
  · rintro rfl; exact absurd h (by decide)

theorem decimalValue_append (l : List Char) (c : Char) :
    decimalValue (l ++ [c]) = decimalValue l * 10 + digitVal c := by
  simp [decimalValue, List.foldl_append]

theorem toDigitsCore_append (fuel n : Nat) (ds : List Char) :
    Nat.toDigitsCore 10 fuel n ds = Nat.toDigitsCore 10 fuel n [] ++ ds := by
  induction fuel generalizing n ds with
  | zero => simp [Nat.toDigitsCore]
  | succ fuel ih =>
    simp only [Nat.toDigitsCore]
    split
    · simp
    · rw [ih (n / 10) (Nat.digitChar (n % 10) :: ds), ih (n / 10) [Nat.digitChar (n % 10)]]
      simp

theorem toDigitsCore_spec (fuel n : Nat) (h : n < fuel) :
    (∀ c ∈ Nat.toDigitsCore 10 fuel n [], isdigit c = true) ∧
      decimalValue (Nat.toDigitsCore 10 fuel n []) = n ∧
      Nat.toDigitsCore 10 fuel n [] ≠ [] := by
  induction fuel generalizing n with
  | zero => exact absurd h (Nat.not_lt_zero n)
  | succ fuel ih =>
    have hd := digitChar_spec (n % 10) (Nat.mod_lt n (by decide))
    simp only [Nat.toDigitsCore]
    split
    · rename_i h0
      refine ⟨?_, ?_, by simp⟩
      · intro c hc
        simp only [List.mem_singleton] at hc
        rw [hc]; exact hd.1
      · have : decimalValue [Nat.digitChar (n % 10)] = digitVal (Nat.digitChar (n % 10)) := by
          simp [decimalValue]
        rw [this, hd.2]
        omega
    · rename_i h0
      have hlt : n / 10 < fuel := by omega
      rcases ih (n / 10) hlt with ⟨h1, h2, _⟩
      rw [toDigitsCore_append]
      refine ⟨?_, ?_, by simp⟩
      · intro c hc
        rcases List.mem_append.1 hc with hc | hc
        · exact h1 c hc
        · simp only [List.mem_singleton] at hc
          rw [hc]; exact hd.1
      · rw [decimalValue_append, h2, hd.2]
        omega

theorem toDigits_spec (n : Nat) :
    (∀ c ∈ Nat.toDigits 10 n, isdigit c = true) ∧ decimalValue (Nat.toDigits 10 n) = n ∧
      Nat.toDigits 10 n ≠ [] :=
  toDigitsCore_spec (n + 1) n (Nat.lt_succ_self n)

theorem atol_digits (ds : List Char) (hd : ∀ c ∈ ds, isdigit c = true) (hne : ds ≠ []) :
    atol ds = clampLong (decimalValue ds) ∧
      atol ('-' :: ds) = clampLong (-(decimalValue ds)) := by
  rcases ds with _ | ⟨c, cs⟩
  · exact absurd rfl hne
  have hc := isdigit_not_special c (hd c (by simp))
  have htw : List.takeWhile isdigit (c :: cs) = c :: cs := List.takeWhile_eq_self_iff.2 hd
  have hsw1 : startsWith '-' (c :: cs) = false := by
    simp only [startsWith, List.head?_cons, beq_eq_false_iff_ne, ne_eq, Option.some.injEq]
    exact hc.2.1
  have hsw2 : startsWith '+' (c :: cs) = false := by
    simp only [startsWith, List.head?_cons, beq_eq_false_iff_ne, ne_eq, Option.some.injEq]
    exact hc.2.2
  constructor
  · have h1 : List.dropWhile isspace (c :: cs) = c :: cs := by
      simp [List.dropWhile, hc.1]
    simp only [atol, h1, dropSign, hsw1, hsw2, Bool.or_self, Bool.false_eq_true, if_false, htw]
  · have h1 : List.dropWhile isspace ('-' :: c :: cs) = '-' :: c :: cs := by
      have : isspace '-' = false := by decide
      simp [List.dropWhile, this]
    have hsw3 : startsWith '-' ('-' :: c :: cs) = true := by simp [startsWith]
    simp only [atol, h1, dropSign, hsw3, Bool.true_or, List.tail_cons, if_true, htw]

theorem atol_decimalString (ms : Int) (hlo : LONG_MIN ≤ ms) (hhi : ms ≤ LONG_MAX) :
    atol (decimalString ms) = ms := by
  rcases toDigits_spec ms.natAbs with ⟨h1, h2, h3⟩
  rcases atol_digits _ h1 h3 with ⟨h4, h5⟩
  unfold decimalString
  split
  · rename_i hneg
    rw [h5, h2]
    have : -((ms.natAbs : Nat) : Int) = ms := by omega
    rw [this]
    simp only [clampLong, LONG_MIN, LONG_MAX] at hlo hhi ⊢
    omega
  · rename_i hneg
    rw [h4, h2]
    have : ((ms.natAbs : Nat) : Int) = ms := by omega
    rw [this]
    simp only [clampLong, LONG_MIN, LONG_MAX] at hlo hhi ⊢
    omega

theorem startsWith_snoc (c d : Char) (x : List Char) (h : c ≠ d) :
    startsWith c (x ++ [d]) = startsWith c x := by
  cases x with
  | nil =>
    simp only [startsWith, List.nil_append, List.head?_cons, List.head?_nil]
    have : (some d == some c) = false := by
      simp only [beq_eq_false_iff_ne, ne_eq, Option.some.injEq]
      exact fun h2 => h h2.symm
    rw [this]
    rfl
  | cons a x => rfl

theorem tail_snoc_of_startsWith (c d : Char) (x : List Char) (h : startsWith c x = true) :
    (x ++ [d]).tail = x.tail ++ [d] := by
  cases x with
  | nil => exact absurd h (by simp [startsWith])
  | cons a x => rfl

theorem dropSign_snoc_nl (x : List Char) : dropSign (x ++ ['\n']) = dropSign x ++ ['\n'] := by
  simp only [dropSign, startsWith_snoc '-' '\n' x (by decide),
    startsWith_snoc '+' '\n' x (by decide)]
  cases hm : startsWith '-' x with
  | true => simp [tail_snoc_of_startsWith _ _ _ hm]
  | false =>
    cases hp : startsWith '+' x with
    | true => simp [tail_snoc_of_startsWith _ _ _ hp]
    | false => simp

theorem takeWhile_isdigit_snoc_nl (x : List Char) :
    (x ++ ['\n']).takeWhile isdigit = x.takeWhile isdigit := by
  induction x with
  | nil => rfl
  | cons a x ih =>
    cases ha : isdigit a <;> simp [List.takeWhile_cons, ha, ih]

theorem dropWhile_isdigit_snoc_nl (x : List Char) :
    (x ++ ['\n']).dropWhile isdigit = x.dropWhile isdigit ++ ['\n'] := by
  induction x with
  | nil => rfl
  | cons a x ih =>
    cases ha : isdigit a <;> simp [List.dropWhile_cons, ha, ih]

theorem exponentOf_snoc_nl (x : List Char) : exponentOf (x ++ ['\n']) = exponentOf x := by
  simp only [exponentOf, startsWith_snoc 'e' '\n' x (by decide),
    startsWith_snoc 'E' '\n' x (by decide)]
  have key : startsWith 'e' x = true ∨ startsWith 'E' x = true →
      (x ++ ['\n']).tail = x.tail ++ ['\n'] := by
    rintro (h | h) <;> exact tail_snoc_of_startsWith _ _ _ h
  cases he : startsWith 'e' x with
  | true =>
    simp only [Bool.true_or, if_true, key (Or.inl he), dropSign_snoc_nl,
      takeWhile_isdigit_snoc_nl, startsWith_snoc '-' '\n' x.tail (by decide)]
  | false =>
    cases hE : startsWith 'E' x with
    | true =>
      simp only [Bool.or_true, if_true, key (Or.inr hE), dropSign_snoc_nl,
        takeWhile_isdigit_snoc_nl, startsWith_snoc '-' '\n' x.tail (by decide)]
    | false => simp

theorem scanNumber_snoc_nl (x : List Char) : scanNumber (x ++ ['\n']) = scanNumber x := by
  simp only [scanNumber, dropSign_snoc_nl, takeWhile_isdigit_snoc_nl, dropWhile_isdigit_snoc_nl,
    startsWith_snoc '.' '\n' _ (by decide), startsWith_snoc '-' '\n' _ (by decide)]
  cases hp : startsWith '.' (List.dropWhile isdigit (dropSign x)) with
  | true =>
    simp only [if_true, tail_snoc_of_startsWith _ _ _ hp, takeWhile_isdigit_snoc_nl,
      dropWhile_isdigit_snoc_nl, exponentOf_snoc_nl]
  | false =>
    simp only [Bool.false_eq_true, if_false, exponentOf_snoc_nl]

theorem atof_snoc_nl (s : List Char) : atof (s ++ ['\n']) = atof s := by
  have h : scanDecimal (s ++ ['\n']) = scanDecimal s := by
    simp only [scanDecimal, List.dropWhile_append]
    cases hs : (List.dropWhile isspace s).isEmpty with
    | true =>
      have h1 : List.dropWhile isspace s = [] := List.isEmpty_iff.1 hs
      have h2 : List.dropWhile isspace ['\n'] = [] := by decide
      simp [h1, h2]
    | false =>
      simp only [Bool.false_eq_true, if_false]
      exact scanNumber_snoc_nl _
  simp only [atof, h]

theorem fgetsChars_line (n : Nat) (body more : List Char) (hnl : '\n' ∉ body)
    (hlen : body.length < n) :
    fgetsChars n (body ++ '\n' :: more) = (body ++ ['\n'], more) := by
  induction body generalizing n with
  | nil =>
    cases n with
    | zero => exact absurd hlen (Nat.lt_irrefl 0)
    | succ n => simp [fgetsChars]
  | cons c body ih =>
    cases n with
    | zero => exact absurd hlen (Nat.not_lt_zero _)
    | succ n =>
      have hc : c ≠ '\n' := fun h => hnl (by simp [h])
      have hb : '\n' ∉ body := fun h => hnl (by simp [h])
      have hl : body.length < n := by simpa using hlen
      simp [fgetsChars, hc, ih n hb hl]

theorem strtok_field (f rest : List Char) (hne : f ≠ []) (ht : '\t' ∉ f) :
    strtok (f ++ '\t' :: rest) = some (f, rest) := by
  have hall : ∀ c ∈ f, (c != '\t') = true := by
    intro c hc
    simp only [bne_iff_ne, ne_eq]
    rintro rfl
    exact ht hc
  rcases f with _ | ⟨a, f⟩
  · exact absurd rfl hne
  have ha : (a == '\t') = false := by
    simp only [beq_eq_false_iff_ne, ne_eq]
    rintro rfl
    exact ht (by simp)
  have h1 : List.dropWhile (fun c => c == '\t') (a :: f ++ '\t' :: rest) =
      a :: f ++ '\t' :: rest := by
    simp [List.dropWhile, ha]
  simp only [strtok, h1]
  rw [List.takeWhile_append_of_pos hall, List.dropWhile_append_of_pos hall]
  simp

theorem strtok_last (f : List Char) (hne : f ≠ []) (ht : '\t' ∉ f) :
    strtok f = some (f, []) := by
  have hall : ∀ c ∈ f, (c != '\t') = true := by
    intro c hc
    simp only [bne_iff_ne, ne_eq]
    rintro rfl
    exact ht hc
  rcases f with _ | ⟨a, f⟩
  · exact absurd rfl hne
  have ha : (a == '\t') = false := by
    simp only [beq_eq_false_iff_ne, ne_eq]
    rintro rfl
    exact ht (by simp)
  have h1 : List.dropWhile (fun c => c == '\t') (a :: f) = a :: f := by
    simp [List.dropWhile, ha]
  simp only [strtok, h1]
  rw [List.takeWhile_eq_self_iff.2 hall, List.dropWhile_eq_nil_iff.2 hall]
  simp

theorem tokenize_tdvLine (f0 f1 f2 f3 f4 f5 f6 f7 f8 : List Char)
    (hf : ∀ f ∈ [f0, f1, f2, f3, f4, f5, f6, f7, f8], f ≠ [] ∧ '\t' ∉ f ∧ '\n' ∉ f) :
    tokenize (tdvLine [f0, f1, f2, f3, f4, f5, f6, f7, f8]) =
      [f0, f1, f2, f3, f4, f5, f6, f7, f8 ++ ['\n']] := by
  have h0 := hf f0 (by simp)
  have h1 := hf f1 (by simp)
  have h2 := hf f2 (by simp)
  have h3 := hf f3 (by simp)
  have h4 := hf f4 (by simp)
  have h5 := hf f5 (by simp)
  have h6 := hf f6 (by simp)
  have h7 := hf f7 (by simp)
  have h8 := hf f8 (by simp)
  have hlast : strtok (f8 ++ ['\n']) = some (f8 ++ ['\n'], []) := by
    apply strtok_last
    · simp
    · intro h
      rcases List.mem_append.1 h with h | h
      · exact h8.2.1 h
      · simp at h
  simp only [tokenize, tdvLine, joinTabs, List.append_assoc, List.cons_append, tokenLoop,
    strtok_field _ _ h0.1 h0.2.1, strtok_field _ _ h1.1 h1.2.1, strtok_field _ _ h2.1 h2.2.1,
    strtok_field _ _ h3.1 h3.2.1, strtok_field _ _ h4.1 h4.2.1, strtok_field _ _ h5.1 h5.2.1,
    strtok_field _ _ h6.1 h6.2.1, strtok_field _ _ h7.1 h7.2.1, hlast]

theorem not_mem_joinTabs (fs : List (List Char)) (h : ∀ f ∈ fs, '\n' ∉ f) :
    '\n' ∉ joinTabs fs := by
  induction fs with
  | nil => simp [joinTabs]
  | cons f fs ih =>
    cases fs with
    | nil => simpa [joinTabs] using h f (by simp)
    | cons g fs =>
      have h1 := h f (by simp)
      have h2 := ih (fun f2 hf2 => h f2 (by simp [hf2]))
      simp only [joinTabs, List.mem_append, List.mem_cons, not_or]
      exact ⟨h1, by decide, h2⟩

/-- C8 (counterexample): two lines made of nine non-empty tab-separated fields
on which the claim fails.  On `lineSnow`, whose snow field is `0.5`, the parsed
`snowCount` is `0`, not the value of the field.  On `longLine`, which has 107
characters, `fgets` returns only the first 99, and the observation parsed from
them has the temperature of the text `27`, not that of field 8. -/
theorem well_formed_line_misparsed :
    (((parse (tokens ⟨lineSnow, fun _ => [], zeroBlock⟩) zeroBlock).snowCount : Int) : ℚ) ≠
        atof "0.5".toList ∧
      fgets line_sz longLine = some (longLine.take 99, longLine.drop 99) ∧
      longLine.take 99 ≠ longLine ∧
      (parse (tokens ⟨longLine.take 99, fun _ => [], zeroBlock⟩) zeroBlock).surfaceTemp ≠
        atof "277.58716".toList * 9 / 5 - 459.67 := by
  have t1 : tokens ⟨lineSnow, fun _ => [], zeroBlock⟩ 4 = "0.5".toList := by decide
  have t2 : tokens ⟨longLine.take 99, fun _ => [], zeroBlock⟩ 8 = "27".toList := by decide
  have s1 : scanDecimal "0.5".toList = ⟨true, false, 5, -1⟩ := by decide
  have s2 : scanDecimal "27".toList = ⟨true, false, 27, 0⟩ := by decide
  have s3 : scanDecimal "277.58716".toList = ⟨true, false, 27758716, -5⟩ := by decide
  have a1 : atof "0.5".toList = 1 / 2 := by
    simp only [atof, s1, Decimal.value]; norm_num
  have a2 : atof "27".toList = 27 := by
    simp only [atof, s2, Decimal.value]; norm_num
  have a3 : atof "277.58716".toList = 27758716 / 100000 := by
    simp only [atof, s3, Decimal.value]; norm_num
  have l1 : toLong (1 / 2) = 0 := by
    have hf : ⌊(1 / 2 : ℚ)⌋ = 0 := by
      rw [Int.floor_eq_iff]; norm_num
    simp only [toLong, hf, LONG_MIN, LONG_MAX]
    norm_num
  refine ⟨?_, by decide, by decide, ?_⟩
  · show ((toLong (atof (tokens ⟨lineSnow, fun _ => [], zeroBlock⟩ 4)) : Int) : ℚ) ≠ _
    rw [t1, a1, l1]
    norm_num
  · show atof (tokens ⟨longLine.take 99, fun _ => [], zeroBlock⟩ 8) * 9 / 5 - 459.67 ≠ _
    rw [t2, a2, a3]
    norm_num

/-- C8 (amended): for every line made of nine non-empty tab-separated fields
and ended by a newline, of at most 99 characters in all, `fgets` returns the
whole line and the observation parsed from it has code = field 0, timestamp =
field 1 read as a `long` and divided by 1000, humidity = field 3, snow = field 4
truncated toward zero to a `long`, cloud cover = field 5, lightning = field 6
and temperature = field 8 * 9/5 - 459.67; fields 2 and 7 have no influence and
the remaining members of the block are left as they were. -/
theorem parse_well_formed_line (f0 f1 f2 f3 f4 f5 f6 f7 f8 more : List Char)
    (stale : Nat → List Char) (block : climate_info)
    (hf : ∀ f ∈ [f0, f1, f2, f3, f4, f5, f6, f7, f8], f ≠ [] ∧ '\t' ∉ f ∧ '\n' ∉ f)
    (hlen : (tdvLine [f0, f1, f2, f3, f4, f5, f6, f7, f8]).length < line_sz) :
    fgets line_sz (tdvLine [f0, f1, f2, f3, f4, f5, f6, f7, f8] ++ more) =
        some (tdvLine [f0, f1, f2, f3, f4, f5, f6, f7, f8], more) ∧
      parse (tokens ⟨tdvLine [f0, f1, f2, f3, f4, f5, f6, f7, f8], stale, block⟩) block =
        { block with
          code := f0
          timeStamp := Int.tdiv (atol f1) 1000
          humidity := atof f3
          snowCount := toLong (atof f4)
          cloudCover := atof f5
          lightningCount := atof f6
          surfaceTemp := atof f8 * 9 / 5 - 459.67 } := by
  constructor
  · have hnl : '\n' ∉ joinTabs [f0, f1, f2, f3, f4, f5, f6, f7, f8] :=
      not_mem_joinTabs _ (fun f h => (hf f h).2.2)
    have hl : (joinTabs [f0, f1, f2, f3, f4, f5, f6, f7, f8]).length < line_sz - 1 := by
      simp only [tdvLine, List.length_append, List.length_singleton, line_sz] at hlen ⊢
      omega
    have hne : tdvLine [f0, f1, f2, f3, f4, f5, f6, f7, f8] ++ more ≠ [] := by
      simp [tdvLine]
    simp only [fgets, hne, if_false]
    simp only [tdvLine, List.append_assoc, List.singleton_append]
    rw [fgetsChars_line _ _ _ hnl hl]
  · simp only [parse, tokens, tokenize_tdvLine _ _ _ _ _ _ _ _ _ hf, List.getD_cons_succ,
      List.getD_cons_zero, atof_snoc_nl]

/-- The line of the scenario, `CA 1428300000000 9prc 93.0 0.0 100.0 0.0 95644.0
277.58716`, is read whole and parsed to code `CA`, timestamp 1428300000,
humidity 93, snow 0, cloud cover 100, lightning 0 and 39.986888 F, which is
within 0.05 of 40. -/
theorem parse_well_formed_line_witness :
    (∀ f ∈ ["CA".toList, "1428300000000".toList, "9prc".toList, "93.0".toList, "0.0".toList,
        "100.0".toList, "0.0".toList, "95644.0".toList, "277.58716".toList],
        f ≠ [] ∧ '\t' ∉ f ∧ '\n' ∉ f) ∧
      (tdvLine ["CA".toList, "1428300000000".toList, "9prc".toList, "93.0".toList,
        "0.0".toList, "100.0".toList, "0.0".toList, "95644.0".toList,
        "277.58716".toList]).length < line_sz ∧
      fgets line_sz (tdvLine ["CA".toList, "1428300000000".toList, "9prc".toList,
          "93.0".toList, "0.0".toList, "100.0".toList, "0.0".toList, "95644.0".toList,
          "277.58716".toList] ++ []) =
        some (tdvLine ["CA".toList, "1428300000000".toList, "9prc".toList, "93.0".toList,
          "0.0".toList, "100.0".toList, "0.0".toList, "95644.0".toList,
          "277.58716".toList], []) ∧
      parse (tokens ⟨tdvLine ["CA".toList, "1428300000000".toList, "9prc".toList,
          "93.0".toList, "0.0".toList, "100.0".toList, "0.0".toList, "95644.0".toList,
          "277.58716".toList], fun _ => [], zeroBlock⟩) zeroBlock =
        { zeroBlock with
          code := "CA".toList, timeStamp := 1428300000, humidity := 93, snowCount := 0,
          cloudCover := 100, lightningCount := 0, surfaceTemp := 39.986888 } ∧
      |(39.986888 : ℚ) - 40| ≤ 0.05 := by
  have h1 : ∀ f ∈ ["CA".toList, "1428300000000".toList, "9prc".toList, "93.0".toList,
      "0.0".toList, "100.0".toList, "0.0".toList, "95644.0".toList, "277.58716".toList],
      f ≠ [] ∧ '\t' ∉ f ∧ '\n' ∉ f := by decide
  have h2 : (tdvLine ["CA".toList, "1428300000000".toList, "9prc".toList, "93.0".toList,
      "0.0".toList, "100.0".toList, "0.0".toList, "95644.0".toList,
      "277.58716".toList]).length < line_sz := by decide
  have h := parse_well_formed_line _ _ _ _ _ _ _ _ _ [] (fun _ => []) zeroBlock h1 h2
  have t1 : Int.tdiv (atol "1428300000000".toList) 1000 = 1428300000 := by decide
  have s3 : scanDecimal "93.0".toList = ⟨true, false, 930, -1⟩ := by decide
  have s4 : scanDecimal "0.0".toList = ⟨true, false, 0, -1⟩ := by decide
  have s5 : scanDecimal "100.0".toList = ⟨true, false, 1000, -1⟩ := by decide
  have s8 : scanDecimal "277.58716".toList = ⟨true, false, 27758716, -5⟩ := by decide
  have a3 : atof "93.0".toList = 93 := by
    simp only [atof, s3, Decimal.value]; norm_num
  have a4 : atof "0.0".toList = 0 := by
    simp only [atof, s4, Decimal.value]; norm_num
  have a5 : atof "100.0".toList = 100 := by
    simp only [atof, s5, Decimal.value]; norm_num
  have a8 : atof "277.58716".toList * 9 / 5 - 459.67 = 39.986888 := by
    simp only [atof, s8, Decimal.value]; norm_num
  refine ⟨h1, h2, h.1, ?_, by norm_num [abs_le]⟩
  rw [h.2]
  simp only [t1, a3, a4, a5, a8, toLong_zero]

/-- C9: for every millisecond timestamp `ms` in the range of `long`, written in
decimal in field 1, the stored timestamp is `ms` divided by 1000 with truncation
toward zero (1000 gives 1, 1999 gives 1, -1999 gives -1); and when field 8 reads
as the Kelvin value `k`, the stored temperature is `k * 9 / 5 - 459.67`, which
for 273.15 is within 0.05 of 32. -/
theorem unit_conversion (ms : Int) (k : ℚ) (tok : Nat → List Char) (block : climate_info)
    (hlo : LONG_MIN ≤ ms) (hhi : ms ≤ LONG_MAX) (h1 : tok 1 = decimalString ms)
    (h8 : atof (tok 8) = k) :
    (parse tok block).timeStamp = Int.tdiv ms 1000 ∧
      (parse tok block).surfaceTemp = k * 9 / 5 - 459.67 ∧
      (ms = 1000 → (parse tok block).timeStamp = 1) ∧
      (ms = 1999 → (parse tok block).timeStamp = 1) ∧
      (ms = -1999 → (parse tok block).timeStamp = -1) ∧
      (k = 273.15 → |(parse tok block).surfaceTemp - 32| ≤ 0.05) := by
  have ht : (parse tok block).timeStamp = Int.tdiv ms 1000 := by
    show Int.tdiv (atol (tok 1)) 1000 = _
    rw [h1, atol_decimalString ms hlo hhi]
  have hk : (parse tok block).surfaceTemp = k * 9 / 5 - 459.67 := by
    show atof (tok 8) * 9 / 5 - 459.67 = _
    rw [h8]
  refine ⟨ht, hk, ?_, ?_, ?_, ?_⟩
  · intro h; rw [ht, h]; decide
  · intro h; rw [ht, h]; decide
  · intro h; rw [ht, h]; decide
  · intro h; rw [hk, h]; norm_num [abs_le]

/-- The line `lineFreezing`: 1999 ms is stored as 1 s and 273.15 K as 32 F. -/
theorem unit_conversion_witness :
    LONG_MIN ≤ 1999 ∧ (1999 : Int) ≤ LONG_MAX ∧
      tokens ⟨lineFreezing, fun _ => [], zeroBlock⟩ 1 = decimalString 1999 ∧
      atof (tokens ⟨lineFreezing, fun _ => [], zeroBlock⟩ 8) = 273.15 ∧
      ((parse (tokens ⟨lineFreezing, fun _ => [], zeroBlock⟩) zeroBlock).timeStamp =
          Int.tdiv 1999 1000 ∧
        (parse (tokens ⟨lineFreezing, fun _ => [], zeroBlock⟩) zeroBlock).surfaceTemp =
          273.15 * 9 / 5 - 459.67 ∧
        ((1999 : Int) = 1000 →
          (parse (tokens ⟨lineFreezing, fun _ => [], zeroBlock⟩) zeroBlock).timeStamp = 1) ∧
        ((1999 : Int) = 1999 →
          (parse (tokens ⟨lineFreezing, fun _ => [], zeroBlock⟩) zeroBlock).timeStamp = 1) ∧
        ((1999 : Int) = -1999 →
          (parse (tokens ⟨lineFreezing, fun _ => [], zeroBlock⟩) zeroBlock).timeStamp = -1) ∧
        ((273.15 : ℚ) = 273.15 →
          |(parse (tokens ⟨lineFreezing, fun _ => [], zeroBlock⟩) zeroBlock).surfaceTemp - 32|
            ≤ 0.05)) :=
  have hlo : LONG_MIN ≤ 1999 := by decide
  have hhi : (1999 : Int) ≤ LONG_MAX := by decide
  have h1 : tokens ⟨lineFreezing, fun _ => [], zeroBlock⟩ 1 = decimalString 1999 := by decide
  have h8 : atof (tokens ⟨lineFreezing, fun _ => [], zeroBlock⟩ 8) = 273.15 := by
    have t8 : tokens ⟨lineFreezing, fun _ => [], zeroBlock⟩ 8 = "273.15\n".toList := by decide
    have s8 : scanDecimal "273.15\n".toList = ⟨true, false, 27315, -2⟩ := by decide
    rw [t8]
    simp only [atof, s8, Decimal.value]
    norm_num
  ⟨hlo, hhi, h1, h8, unit_conversion 1999 273.15 _ zeroBlock hlo hhi h1 h8⟩

theorem tokenize_lineShort :
    tokenize lineShort = ["WA".toList, "1428300000000".toList, "9prc".toList, "93.0".toList,
      "0.0\n".toList] := by
  decide

/-- C10 (evaluation of the code): the line `lineShort` has five fields only, yet
whatever memory the iteration finds in the unset slots of `tokens` and in the
block from `malloc`, processing it against the empty table stores a `WA` entry
with `numRecords = 1`, whose cloud cover, lightning count and temperature are
read from the slots 5, 6 and 8 that the tokenising loop never filled; and
processing it against a table that has a `WA` entry with one record raises that
entry's `numRecords` to 2.  The line is not skipped. -/
theorem short_line_not_skipped (stale : Nat → List Char) (block : climate_info) :
    analyze_line emptyStates ⟨lineShort, stale, block⟩ ≠ emptyStates ∧
      (∃ e rest, analyze_line emptyStates ⟨lineShort, stale, block⟩ = some e :: rest ∧
        e.code = "WA".toList ∧ e.numRecords = 1 ∧ e.timeStamp = 1428300000 ∧
        e.humidity = 93 ∧ e.cloudCover = atof (stale 5) ∧
        e.lightningCount = atof (stale 6) ∧
        e.surfaceTemp = atof (stale 8) * 9 / 5 - 459.67) ∧
      ∃ e rest, analyze_line (ingestAll [wa52]) ⟨lineShort, stale, block⟩ = some e :: rest ∧
        e.code = "WA".toList ∧ e.numRecords = 2 := by
  have h1 : atol "1428300000000".toList = 1428300000000 := by decide
  have h3 : scanDecimal "93.0".toList = ⟨true, false, 930, -1⟩ := by decide
  have a3 : atof "93.0".toList = 93 := by
    simp only [atof, h3, Decimal.value]; norm_num
  have hd : Int.tdiv 1428300000000 1000 = 1428300000 := by decide
  have hcode : (parse (tokens ⟨lineShort, stale, block⟩) block).code = "WA".toList := by
    simp only [parse, tokens, tokenize_lineShort, List.getD_cons_zero]
  have hrun : analyze_line emptyStates ⟨lineShort, stale, block⟩ =
      some { parse (tokens ⟨lineShort, stale, block⟩) block with numRecords := 1 } ::
        List.replicate 49 none := rfl
  have hrun2 : analyze_line (ingestAll [wa52]) ⟨lineShort, stale, block⟩ =
      some (fold { wa52 with numRecords := 1 }
          (parse (tokens ⟨lineShort, stale, block⟩) block)) :: List.replicate 49 none := by
    have hi : ingestAll [wa52] = some { wa52 with numRecords := 1 } :: List.replicate 49 none :=
      rfl
    have hc : ({ wa52 with numRecords := 1 } : climate_info).code =
        (parse (tokens ⟨lineShort, stale, block⟩) block).code := by
      rw [hcode]; rfl
    show ingest (ingestAll [wa52]) _ = _
    rw [hi]
    exact ingest_same_code _ _ _ hc
  refine ⟨?_, ⟨_, _, hrun, hcode, rfl, ?_, ?_, ?_, ?_, ?_⟩, _, _, hrun2, rfl, rfl⟩
  · rw [hrun]
    intro h
    have h2 := congrArg List.head? h
    simp [emptyStates, NUM_STATES, List.replicate_succ] at h2
  · simp only [parse, tokens, tokenize_lineShort, List.getD_cons_succ, List.getD_cons_zero,
      h1, hd]
  · simp only [parse, tokens, tokenize_lineShort, List.getD_cons_succ, List.getD_cons_zero,
      a3]
  · simp only [parse, tokens, tokenize_lineShort, List.getD_cons_succ, List.getD_nil]
  · simp only [parse, tokens, tokenize_lineShort, List.getD_cons_succ, List.getD_nil]
  · simp only [parse, tokens, tokenize_lineShort, List.getD_cons_succ, List.getD_nil]

theorem ingest_length (states : List (Option climate_info)) (state : climate_info) :
    (ingest states state).length = states.length := by
  induction states with
  | nil => rfl
  | cons s states ih =>
    cases s with
    | none => simp [ingest]
    | some a =>
      by_cases h : a.code = state.code
      · simp [ingest, h]
      · simp [ingest, h, ih]

theorem ingest_one_slot (states : List (Option climate_info)) (state : climate_info) :
    ∃ i : Nat, ∀ j : Nat, j ≠ i → (ingest states state)[j]? = states[j]? := by
  induction states with
  | nil => exact ⟨0, fun j _ => rfl⟩
  | cons s states ih =>
    cases s with
    | none =>
      refine ⟨0, fun j hj => ?_⟩
      cases j with
      | zero => exact absurd rfl hj
      | succ j => simp [ingest]
    | some a =>
      by_cases h : a.code = state.code
      · refine ⟨0, fun j hj => ?_⟩
        cases j with
        | zero => exact absurd rfl hj
        | succ j => simp [ingest, h]
      · rcases ih with ⟨i, hi⟩
        refine ⟨i + 1, fun j hj => ?_⟩
        cases j with
        | zero => simp [ingest, h]
        | succ j =>
          have := hi j (fun h2 => hj (by rw [h2]))
          simpa [ingest, h] using this

theorem ingest_other_code (states : List (Option climate_info)) (state : climate_info)
    (j : Nat) (e : climate_info) (hj : states[j]? = some (some e))
    (hc : e.code ≠ state.code) :
    (ingest states state)[j]? = some (some e) := by
  induction states generalizing j with
  | nil => simp at hj
  | cons s states ih =>
    cases s with
    | none =>
      cases j with
      | zero => simp at hj
      | succ j => simpa [ingest] using hj
    | some a =>
      by_cases h : a.code = state.code
      · cases j with
        | zero =>
          simp only [List.getElem?_cons_zero, Option.some.injEq] at hj
          exact absurd (hj ▸ h) hc
        | succ j => simpa [ingest, h] using hj
      · cases j with
        | zero => simpa [ingest, h] using hj
        | succ j =>
          have := ih j (by simpa using hj)
          simpa [ingest, h] using this

theorem ingest_keeps_code (states : List (Option climate_info)) (state : climate_info)
    (j : Nat) (e : climate_info) (hj : states[j]? = some (some e)) :
    ∃ e2, (ingest states state)[j]? = some (some e2) ∧ e2.code = e.code := by
  by_cases hc : e.code = state.code
  · induction states generalizing j with
    | nil => simp at hj
    | cons s states ih =>
      cases s with
      | none =>
        cases j with
        | zero => simp at hj
        | succ j => exact ⟨e, by simpa [ingest] using hj, rfl⟩
      | some a =>
        by_cases h : a.code = state.code
        · cases j with
          | zero =>
            simp only [List.getElem?_cons_zero, Option.some.injEq] at hj
            exact ⟨fold a state, by simp [ingest, h], by rw [fold_code, hj]⟩
          | succ j => exact ⟨e, by simpa [ingest, h] using hj, rfl⟩
        · cases j with
          | zero => exact ⟨e, by simpa [ingest, h] using hj, rfl⟩
          | succ j =>
            rcases ih j (by simpa using hj) with ⟨e2, h2, h3⟩
            exact ⟨e2, by simpa [ingest, h] using h2, h3⟩
  · exact ⟨e, ingest_other_code states state j e hj hc, rfl⟩

/-- C19: for every table and every observation, ingesting the observation keeps
the number of slots and changes at most one slot; every entry whose state code
differs from the observation's is left as it was, in the same slot; and every
existing entry stays in its slot with the same code. -/
theorem ingest_frame (states : List (Option climate_info)) (state : climate_info) :
    (ingest states state).length = states.length ∧
      (∃ i : Nat, ∀ j : Nat, j ≠ i → (ingest states state)[j]? = states[j]?) ∧
      (∀ (j : Nat) (e : climate_info), states[j]? = some (some e) → e.code ≠ state.code →
        (ingest states state)[j]? = some (some e)) ∧
      (∀ (j : Nat) (e : climate_info), states[j]? = some (some e) →
        ∃ e2, (ingest states state)[j]? = some (some e2) ∧ e2.code = e.code) :=
  ⟨ingest_length states state, ingest_one_slot states state, ingest_other_code states state,
    ingest_keeps_code states state⟩

theorem firstSeen_snoc (l : List (List Char)) (c : List Char) :
    firstSeen (l ++ [c]) = if c ∈ firstSeen l then firstSeen l else firstSeen l ++ [c] := by
  simp [firstSeen, List.foldl_append]

theorem mem_firstSeen (l : List (List Char)) (c : List Char) : c ∈ firstSeen l ↔ c ∈ l := by
  induction l using List.reverseRecOn with
  | nil => simp [firstSeen]
  | append_singleton l a ih =>
    rw [firstSeen_snoc]
    by_cases h : a ∈ firstSeen l
    · simp only [h, if_true, List.mem_append, List.mem_singleton]
      constructor
      · intro h2; exact Or.inl (ih.1 h2)
      · rintro (h2 | h2)
        · exact ih.2 h2
        · rw [h2]; exact h
    · simp only [h, if_false, List.mem_append, List.mem_singleton, ih]

theorem codes_append_singleton (es : List climate_info) (e : climate_info) :
    codes (es ++ [e]) = codes es ++ [e.code] := by
  simp [codes]

theorem statesFound_table (es : List climate_info) (k : Nat) :
    statesFound (table es k) = codes es := by
  simp only [statesFound, table, List.filterMap_append]
  have h1 : List.filterMap (fun s : Option climate_info => s.map (fun e => e.code))
      (List.replicate k none) = [] := by
    induction k with
    | zero => rfl
    | succ k ih => simp [List.replicate_succ, ih]
  have h2 : List.filterMap (fun s : Option climate_info => s.map (fun e => e.code))
      (es.map some) = codes es := by
    induction es with
    | nil => rfl
    | cons e es ih => simp [codes]
  rw [h1, h2, List.append_nil]

theorem order_step (obs es : List climate_info) (k : Nat) (state : climate_info)
    (hsize : es.length + k = NUM_STATES)
    (hord : codes es = (firstSeen (obs.map (fun o => o.code))).take NUM_STATES) :
    ∃ es2 k2, ingest (table es k) state = table es2 k2 ∧ es2.length + k2 = NUM_STATES ∧
      codes es2 = (firstSeen ((obs ++ [state]).map (fun o => o.code))).take NUM_STATES := by
  have hlen : (codes es).length = es.length := by simp [codes]
  rw [List.map_append, List.map_singleton, firstSeen_snoc]
  by_cases hm : state.code ∈ codes es
  · refine ⟨foldInto es state, k, ingest_table_mem es k state hm, ?_, ?_⟩
    · rw [length_foldInto]; exact hsize
    · have hin : state.code ∈ firstSeen (obs.map (fun o => o.code)) := by
        rw [hord] at hm
        exact List.mem_of_mem_take hm
      rw [codes_foldInto, if_pos hin]
      exact hord
  · cases k with
    | zero =>
      refine ⟨es, 0, ingest_table_full es state hm, hsize, ?_⟩
      have hfull : NUM_STATES ≤ (firstSeen (obs.map (fun o => o.code))).length := by
        have h1 := congrArg List.length hord
        rw [hlen, List.length_take] at h1
        omega
      split
      · exact hord
      · rw [List.take_append_of_le_length hfull]
        exact hord
    | succ k =>
      refine ⟨es ++ [{ state with numRecords := 1 }], k, ingest_table_new es k state hm, ?_, ?_⟩
      · simp only [List.length_append, List.length_singleton]; omega
      · have hshort : (firstSeen (obs.map (fun o => o.code))).length < NUM_STATES := by
          have h1 := congrArg List.length hord
          rw [hlen, List.length_take] at h1
          omega
        have hall : codes es = firstSeen (obs.map (fun o => o.code)) := by
          rw [hord, List.take_of_length_le (Nat.le_of_lt hshort)]
        have hnot : state.code ∉ firstSeen (obs.map (fun o => o.code)) := by
          rw [← hall]; exact hm
        rw [if_neg hnot, codes_append_singleton, hall]
        rw [List.take_of_length_le]
        simp only [List.length_append, List.length_singleton]
        omega

theorem order_ingestAll (obs : List climate_info) :
    ∃ es k, ingestAll obs = table es k ∧ es.length + k = NUM_STATES ∧
      codes es = (firstSeen (obs.map (fun o => o.code))).take NUM_STATES := by
  induction obs using List.reverseRecOn with
  | nil =>
    exact ⟨[], NUM_STATES, by simp [ingestAll, emptyStates, table], by simp,
      by simp [codes, firstSeen]⟩
  | append_singleton obs state ih =>
    rcases ih with ⟨es, k, ht, hs, ho⟩
    rcases order_step obs es k state hs ho with ⟨es2, k2, ht2, hs2, ho2⟩
    refine ⟨es2, k2, ?_, hs2, ho2⟩
    simp only [ingestAll, List.foldl_append, List.foldl_cons, List.foldl_nil] at ht ⊢
    rw [ht, ht2]

/-- C18: for every sequence of observations with at most `NUM_STATES` distinct
state codes, ingested from the empty table, the codes that `print_report` reads
from the occupied slots, in slot order, are exactly the distinct state codes of
the sequence in the order of their first occurrence. -/
theorem statesFound_first_seen (obs : List climate_info)
    (h : (firstSeen (obs.map (fun o => o.code))).length ≤ NUM_STATES) :
    statesFound (ingestAll obs) = firstSeen (obs.map (fun o => o.code)) := by
  rcases order_ingestAll obs with ⟨es, k, ht, _, ho⟩
  rw [ht, statesFound_table, ho, List.take_of_length_le h]

/-- The observations `wa52`, `ca40`, `wa60` are reported as `WA`, `CA`. -/
theorem statesFound_first_seen_witness :
    (firstSeen ([wa52, ca40, wa60].map (fun o => o.code))).length ≤ NUM_STATES ∧
      statesFound (ingestAll [wa52, ca40, wa60]) =
        firstSeen ([wa52, ca40, wa60].map (fun o => o.code)) ∧
      firstSeen ([wa52, ca40, wa60].map (fun o => o.code)) = [['W', 'A'], ['C', 'A']] :=
  have h : (firstSeen ([wa52, ca40, wa60].map (fun o => o.code))).length ≤ NUM_STATES := by
    decide
  ⟨h, statesFound_first_seen [wa52, ca40, wa60] h, by decide⟩

theorem codes_map_obsOf (cs : List (List Char)) :
    (cs.map obsOf).map (fun o => o.code) = cs := by
  induction cs with
  | nil => rfl
  | cons c cs ih => simp only [List.map_cons, ih]; rfl

set_option maxRecDepth 100000 in
/-- C11 (counterexample): fifty-one observations with the pairwise different
codes of `manyCodes`, ingested from the empty table, leave the last code, `F0`,
without an entry. -/
theorem fifty_first_code_dropped :
    obsOf ['F', '0'] ∈ manyCodes.map obsOf ∧
      ∀ e, some e ∈ ingestAll (manyCodes.map obsOf) → e.code ≠ (obsOf ['F', '0']).code := by
  constructor
  · exact List.mem_map_of_mem obsOf (by decide)
  · intro e he hc
    rcases order_ingestAll (manyCodes.map obsOf) with ⟨es, k, ht, _, ho⟩
    rw [ht, mem_table] at he
    have hmem : e.code ∈ codes es := List.mem_map_of_mem _ he
    rw [ho, codes_map_obsOf, hc] at hmem
    revert hmem
    decide

/-- C11 (amended): for every sequence of observations with at most `NUM_STATES`
(50) distinct state codes, ingested from the empty table, every state code
occurring in the sequence has an entry in the resulting table. -/
theorem every_code_has_entry (obs : List climate_info)
    (h : (firstSeen (obs.map (fun o => o.code))).length ≤ NUM_STATES)
    (o : climate_info) (ho : o ∈ obs) :
    ∃ e, some e ∈ ingestAll obs ∧ e.code = o.code := by
  rcases order_ingestAll obs with ⟨es, k, ht, _, hord⟩
  rw [List.take_of_length_le h] at hord
  have hmem : o.code ∈ codes es := by
    rw [hord, mem_firstSeen]
    exact List.mem_map_of_mem _ ho
  rcases List.mem_map.1 hmem with ⟨e, he, hec⟩
  exact ⟨e, by rw [ht, mem_table]; exact he, hec⟩

set_option maxRecDepth 100000 in
/-- Fifty different codes all get an entry, the last one, `E9`, included. -/
theorem every_code_has_entry_witness :
    (firstSeen (((manyCodes.take 50).map obsOf).map (fun o => o.code))).length ≤ NUM_STATES ∧
      obsOf ['E', '9'] ∈ (manyCodes.take 50).map obsOf ∧
      ∃ e, some e ∈ ingestAll ((manyCodes.take 50).map obsOf) ∧
        e.code = (obsOf ['E', '9']).code :=
  have h1 : (firstSeen (((manyCodes.take 50).map obsOf).map (fun o => o.code))).length ≤
      NUM_STATES := by
    rw [codes_map_obsOf]; decide
  have h2 : obsOf ['E', '9'] ∈ (manyCodes.take 50).map obsOf :=
    List.mem_map_of_mem obsOf (by decide)
  ⟨h1, h2, every_code_has_entry _ h1 _ h2⟩

theorem getElem?_foldInto (es : List climate_info) (state : climate_info) (i : Nat)
    (e : climate_info) (hn : (codes es).Nodup) (hi : es[i]? = some e)
    (hc : e.code = state.code) :
    (foldInto es state)[i]? = some (fold e state) := by
  induction es generalizing i with
  | nil => simp at hi
  | cons a es ih =>
    have hn2 : (codes es).Nodup := by
      simp only [codes, List.map_cons, List.nodup_cons] at hn; exact hn.2
    have hne : a.code ∉ codes es := by
      simp only [codes, List.map_cons, List.nodup_cons] at hn; exact hn.1
    cases i with
    | zero =>
      simp only [List.getElem?_cons_zero, Option.some.injEq] at hi
      subst hi
      simp [foldInto, hc]
    | succ i =>
      have hi2 : es[i]? = some e := by simpa using hi
      have hmem : e ∈ es := List.getElem?_mem hi2
      have hac : ¬ a.code = state.code := by
        intro h
        apply hne
        rw [h, ← hc]
        exact List.mem_map_of_mem _ hmem
      simp only [foldInto, hac, if_false, List.getElem?_cons_succ]
      exact ih i hn2 hi2

theorem ingest_getElem?_match (es : List climate_info) (k : Nat) (state : climate_info)
    (i : Nat) (e : climate_info) (hn : (codes es).Nodup) (hi : es[i]? = some e)
    (hc : e.code = state.code) :
    (ingest (table es k) state)[i]? = some (some (fold e state)) := by
  have hmem : state.code ∈ codes es := by
    rw [← hc]; exact List.mem_map_of_mem _ (List.getElem?_mem hi)
  rw [ingest_table_mem es k state hmem, getElem?_table]
  exact getElem?_foldInto es state i e hn hi hc

/-- C13: for every table reached from the empty table by ingesting a sequence of
observations (fewer than `2 ^ 64 - 1` of them) that contains an entry for the
observation's state code, ingesting the observation increases that entry's
`numRecords` by exactly 1, adds the observation's humidity, cloud cover and
temperature to the entry's three sums and its lightning value to
`lightningCount`, and sets `avgTemperature`, `avgHumidity` and `avgCloudCover`
to the new sum divided by the new `numRecords`. -/
theorem fold_into_existing (obs : List climate_info) (state : climate_info) (i : Nat)
    (e : climate_info) (hlen : obs.length + 1 < ULONG_SIZE)
    (hi : (ingestAll obs)[i]? = some (some e)) (hc : e.code = state.code) :
    ∃ e2, (ingest (ingestAll obs) state)[i]? = some (some e2) ∧
      e2.numRecords = e.numRecords + 1 ∧
      e2.humidity = e.humidity + state.humidity ∧
      e2.cloudCover = e.cloudCover + state.cloudCover ∧
      e2.surfaceTemp = e.surfaceTemp + state.surfaceTemp ∧
      e2.lightningCount = e.lightningCount + state.lightningCount ∧
      e2.avgTemperature = e2.surfaceTemp / (e2.numRecords : ℚ) ∧
      e2.avgHumidity = e2.humidity / (e2.numRecords : ℚ) ∧
      e2.avgCloudCover = e2.cloudCover / (e2.numRecords : ℚ) := by
  rcases reached_ingestAll obs with ⟨es, k, ht, hr⟩
  rw [ht] at hi ⊢
  have hi2 : es[i]? = some e := (getElem?_table es k i e).1 hi
  have hcount : e.numRecords + 1 < ULONG_SIZE := by
    rw [hr.count e (List.getElem?_mem hi2)]
    have h1 : obs.countP (fun o => decide (o.code = e.code)) % ULONG_SIZE ≤
        obs.countP (fun o => decide (o.code = e.code)) := Nat.mod_le _ _
    have h2 : obs.countP (fun o => decide (o.code = e.code)) ≤ obs.length :=
      List.countP_le_length _
    omega
  refine ⟨fold e state, ingest_getElem?_match es k state i e hr.nodup hi2 hc, ?_, rfl, rfl,
    rfl, rfl, rfl, rfl, rfl⟩
  show (e.numRecords + 1) % ULONG_SIZE = e.numRecords + 1
  exact Nat.mod_eq_of_lt hcount

/-- The table reached by ingesting `wa52`, and the observation `wa60`: the `WA`
entry goes to 2 records, sums 120, 40 and 112, averages 60, 20 and 56. -/
theorem fold_into_existing_witness :
    [wa52].length + 1 < ULONG_SIZE ∧ (ingestAll [wa52])[0]? = some (some waEntry) ∧
      waEntry.code = wa60.code ∧
      ∃ e2, (ingest (ingestAll [wa52]) wa60)[0]? = some (some e2) ∧
        e2.numRecords = waEntry.numRecords + 1 ∧
        e2.humidity = waEntry.humidity + wa60.humidity ∧
        e2.cloudCover = waEntry.cloudCover + wa60.cloudCover ∧
        e2.surfaceTemp = waEntry.surfaceTemp + wa60.surfaceTemp ∧
        e2.lightningCount = waEntry.lightningCount + wa60.lightningCount ∧
        e2.avgTemperature = e2.surfaceTemp / (e2.numRecords : ℚ) ∧
        e2.avgHumidity = e2.humidity / (e2.numRecords : ℚ) ∧
        e2.avgCloudCover = e2.cloudCover / (e2.numRecords : ℚ) :=
  have h1 : [wa52].length + 1 < ULONG_SIZE := by decide
  have h2 : (ingestAll [wa52])[0]? = some (some waEntry) := rfl
  have h3 : waEntry.code = wa60.code := rfl
  ⟨h1, h2, h3, fold_into_existing [wa52] wa60 0 waEntry h1 h2 h3⟩

/-- C14: when an observation is folded into the existing entry for its code (in
a table whose occupied slots form a gap-free prefix with pairwise different
codes), `maxTemp` and `maxTimeStamp` become the observation's temperature and
timestamp if the temperature is strictly greater than the stored `maxTemp` and
are left unchanged otherwise; `minTemp` and `minTimeStamp` likewise with
strictly less; in particular a temperature equal to a stored extremum leaves
that extremum and its timestamp unchanged. -/
theorem extrema_update_step (es : List climate_info) (k : Nat) (state : climate_info)
    (i : Nat) (e : climate_info) (hn : (codes es).Nodup) (hi : es[i]? = some e)
    (hc : e.code = state.code) :
    ∃ e2, (ingest (table es k) state)[i]? = some (some e2) ∧
      (state.surfaceTemp > e.maxTemp →
        e2.maxTemp = state.surfaceTemp ∧ e2.maxTimeStamp = state.timeStamp) ∧
      (¬ state.surfaceTemp > e.maxTemp →
        e2.maxTemp = e.maxTemp ∧ e2.maxTimeStamp = e.maxTimeStamp) ∧
      (state.surfaceTemp < e.minTemp →
        e2.minTemp = state.surfaceTemp ∧ e2.minTimeStamp = state.timeStamp) ∧
      (¬ state.surfaceTemp < e.minTemp →
        e2.minTemp = e.minTemp ∧ e2.minTimeStamp = e.minTimeStamp) ∧
      (state.surfaceTemp = e.maxTemp →
        e2.maxTemp = e.maxTemp ∧ e2.maxTimeStamp = e.maxTimeStamp) ∧
      (state.surfaceTemp = e.minTemp →
        e2.minTemp = e.minTemp ∧ e2.minTimeStamp = e.minTimeStamp) := by
  have hmax : ¬ state.surfaceTemp > e.maxTemp →
      (fold e state).maxTemp = e.maxTemp ∧ (fold e state).maxTimeStamp = e.maxTimeStamp := by
    intro h; simp [fold, h]
  have hmin : ¬ state.surfaceTemp < e.minTemp →
      (fold e state).minTemp = e.minTemp ∧ (fold e state).minTimeStamp = e.minTimeStamp := by
    intro h; simp [fold, h]
  refine ⟨fold e state, ingest_getElem?_match es k state i e hn hi hc, ?_, hmax, ?_, hmin, ?_,
    ?_⟩
  · intro h; simp [fold, h]
  · intro h; simp [fold, h]
  · intro h; exact hmax (by rw [h]; exact lt_irrefl _)
  · intro h; exact hmin (by rw [h]; exact lt_irrefl _)

/-- The entry `waEntry` (extrema 0 from its zeroed block) and `wa60`: 60 is
above the stored maximum 0, so the maximum becomes 60 at time 2000, and the
minimum stays 0. -/
theorem extrema_update_step_witness :
    (codes [waEntry]).Nodup ∧ [waEntry][0]? = some waEntry ∧ waEntry.code = wa60.code ∧
      ∃ e2, (ingest (table [waEntry] 49) wa60)[0]? = some (some e2) ∧
        (wa60.surfaceTemp > waEntry.maxTemp →
          e2.maxTemp = wa60.surfaceTemp ∧ e2.maxTimeStamp = wa60.timeStamp) ∧
        (¬ wa60.surfaceTemp > waEntry.maxTemp →
          e2.maxTemp = waEntry.maxTemp ∧ e2.maxTimeStamp = waEntry.maxTimeStamp) ∧
        (wa60.surfaceTemp < waEntry.minTemp →
          e2.minTemp = wa60.surfaceTemp ∧ e2.minTimeStamp = wa60.timeStamp) ∧
        (¬ wa60.surfaceTemp < waEntry.minTemp →
          e2.minTemp = waEntry.minTemp ∧ e2.minTimeStamp = waEntry.minTimeStamp) ∧
        (wa60.surfaceTemp = waEntry.maxTemp →
          e2.maxTemp = waEntry.maxTemp ∧ e2.maxTimeStamp = waEntry.maxTimeStamp) ∧
        (wa60.surfaceTemp = waEntry.minTemp →
          e2.minTemp = waEntry.minTemp ∧ e2.minTimeStamp = waEntry.minTimeStamp) :=
  have h1 : (codes [waEntry]).Nodup := by decide
  have h2 : [waEntry][0]? = some waEntry := rfl
  have h3 : waEntry.code = wa60.code := rfl
  ⟨h1, h2, h3, extrema_update_step [waEntry] 49 wa60 0 waEntry h1 h2 h3⟩

theorem splitTabs_no_tab (f : List Char) (h : '\t' ∉ f) : splitTabs f = [f] := by
  induction f with
  | nil => rfl
  | cons c f ih =>
    have hc : ¬ c = '\t' := fun h2 => h (by simp [h2])
    have hf : '\t' ∉ f := fun h2 => h (by simp [h2])
    simp [splitTabs, hc, ih hf]

theorem splitTabs_field (f rest : List Char) (h : '\t' ∉ f) :
    splitTabs (f ++ '\t' :: rest) = f :: splitTabs rest := by
  induction f with
  | nil => simp [splitTabs]
  | cons c f ih =>
    have hc : ¬ c = '\t' := fun h2 => h (by simp [h2])
    have hf : '\t' ∉ f := fun h2 => h (by simp [h2])
    simp [splitTabs, hc, ih hf]

theorem nonEmptyPieces_dropWhile (s : List Char) :
    nonEmptyPieces (s.dropWhile (fun c => c == '\t')) = nonEmptyPieces s := by
  induction s with
  | nil => rfl
  | cons c s ih =>
    by_cases hc : c = '\t'
    · subst hc
      simp only [List.dropWhile_cons, beq_self_eq_true, if_true, ih]
      simp [nonEmptyPieces, splitTabs]
    · have : (c == '\t') = false := by simpa using hc
      simp [List.dropWhile_cons, this]

theorem strtok_none (s : List Char) (h : strtok s = none) : nonEmptyPieces s = [] := by
  rw [← nonEmptyPieces_dropWhile]
  unfold strtok at h
  simp only at h
  split at h
  · rename_i he
    rw [List.isEmpty_iff.1 he]
    rfl
  · exact absurd h (by simp)

theorem strtok_some (s token rest : List Char) (h : strtok s = some (token, rest)) :
    nonEmptyPieces s = token :: nonEmptyPieces rest := by
  rw [← nonEmptyPieces_dropWhile]
  unfold strtok at h
  simp only at h
  split at h
  · exact absurd h (by simp)
  · rename_i he
    simp only [Option.some.injEq, Prod.mk.injEq] at h
    rcases h with ⟨h1, h2⟩
    generalize hs1 : List.dropWhile (fun c => c == '\t') s = s1 at he h1 h2
    have hhead : ∀ c r, s1 = c :: r → c ≠ '\t' := by
      intro c r hcr hct
      have := List.head_dropWhile_not (fun c => c == '\t') s
        (by rw [hs1, hcr]; simp)
      simp [hs1, hcr, hct] at this
    have hnotab : '\t' ∉ token := by
      rw [← h1]
      intro hmem
      have := List.mem_takeWhile_imp hmem
      simp at this
    have hne : token ≠ [] := by
      rcases s1 with _ | ⟨c, r⟩
      · simp at he
      · have hc := hhead c r rfl
        rw [← h1]
        simp [List.takeWhile_cons, hc]
    have hsplit : s1 = token ++ List.dropWhile (fun c => c != '\t') s1 := by
      rw [← h1, List.takeWhile_append_dropWhile]
    rcases hd : List.dropWhile (fun c => c != '\t') s1 with _ | ⟨d, r⟩
    · rw [hd] at hsplit h2
      simp only [List.tail_nil] at h2
      rw [hsplit, ← h2, List.append_nil]
      simp [nonEmptyPieces, splitTabs_no_tab token hnotab, hne, splitTabs]
    · have hdt : d = '\t' := by
        have := List.head_dropWhile_not (fun c => c != '\t') s1 (by rw [hd]; simp)
        simpa [hd] using this
      rw [hd] at hsplit h2
      simp only [List.tail_cons] at h2
      rw [hsplit, hdt, ← h2]
      simp [nonEmptyPieces, splitTabs_field token r hnotab, hne]

theorem tokenLoop_eq (n : Nat) (s : List Char) :
    tokenLoop n s = (nonEmptyPieces s).take n := by
  induction n generalizing s with
  | zero => simp [tokenLoop]
  | succ n ih =>
    unfold tokenLoop
    split
    · rename_i h
      rw [strtok_none s h]; rfl
    · rename_i token rest h
      rw [strtok_some s token rest h, ih]
      rfl

theorem take_filter_of_all (p : List Char → Bool) (l : List (List Char)) (n : Nat)
    (h : ∀ x ∈ l.take n, p x = true) : (l.filter p).take n = l.take n := by
  induction l generalizing n with
  | nil => simp
  | cons a l ih =>
    cases n with
    | zero => simp
    | succ n =>
      have ha : p a = true := h a (by simp)
      have hl : ∀ x ∈ l.take n, p x = true := fun x hx => h x (by simp [hx])
      simp [List.filter_cons, ha, ih n hl]

/-- C15 (counterexample): on `lineEmptyField` (empty geohash) the tokens are not
the first 9 tab-separated pieces: piece 3 is `93.0` but token 3 is `0.0`, and
humidity is parsed as 0; on `lineLeadingTab` piece 0 is empty but token 0 is
`CA`. -/
theorem empty_piece_shifts_tokens :
    tokenize lineEmptyField ≠ (splitTabs lineEmptyField).take 9 ∧
      (splitTabs lineEmptyField).getD 3 [] = "93.0".toList ∧
      tokens ⟨lineEmptyField, fun _ => [], zeroBlock⟩ 3 = "0.0".toList ∧
      (parse (tokens ⟨lineEmptyField, fun _ => [], zeroBlock⟩) zeroBlock).humidity = 0 ∧
      (splitTabs lineLeadingTab).getD 0 [] = [] ∧
      tokens ⟨lineLeadingTab, fun _ => [], zeroBlock⟩ 0 = "CA".toList := by
  have h4 : scanDecimal "0.0".toList = ⟨true, false, 0, -1⟩ := by decide
  have t3 : tokens ⟨lineEmptyField, fun _ => [], zeroBlock⟩ 3 = "0.0".toList := by decide
  refine ⟨by decide, by decide, t3, ?_, by decide, by decide⟩
  show atof (tokens ⟨lineEmptyField, fun _ => [], zeroBlock⟩ 3) = 0
  rw [t3]
  simp only [atof, h4, Decimal.value]
  norm_num

/-- C15 (amended): for every input line, the tokens the parser uses are the
first 9 non-empty pieces obtained by splitting the line at each tab character:
empty pieces (two adjacent tabs, a leading or a trailing tab) are dropped.  So
field `k` of the record is the `k`-th tab-separated piece whenever none of the
first 9 pieces is empty. -/
theorem tokenize_nonEmptyPieces (line : List Char) :
    tokenize line = ((splitTabs line).filter (fun p => !p.isEmpty)).take 9 ∧
      ((∀ p ∈ (splitTabs line).take 9, p ≠ []) →
        tokenize line = (splitTabs line).take 9) := by
  have h : tokenize line = ((splitTabs line).filter (fun p => !p.isEmpty)).take 9 :=
    tokenLoop_eq 9 line
  refine ⟨h, fun hall => ?_⟩
  rw [h]
  apply take_filter_of_all
  intro x hx
  have := hall x hx
  cases x with
  | nil => exact absurd rfl this
  | cons a x => rfl

theorem analyze_file_eq_ingest (file : List LineRead) (states : List (Option climate_info)) :
    analyze_file file states =
      (file.map (fun r => parse (tokens r) r.block)).foldl ingest states := by
  simp only [analyze_file, List.foldl_map]
  rfl

theorem wrapLong_of_range (v : Int) (hlo : LONG_MIN ≤ v) (hhi : v ≤ LONG_MAX) :
    wrapLong v = v := by
  simp only [wrapLong, LONG_MIN, LONG_MAX] at *
  omega

theorem toLong_half : toLong (1 / 2) = 0 := by
  have hf : ⌊(1 / 2 : ℚ)⌋ = 0 := by
    rw [Int.floor_eq_iff]; norm_num
  simp only [toLong, hf, LONG_MIN, LONG_MAX]
  norm_num

theorem toLong_one : toLong 1 = 1 := by
  simp [toLong, LONG_MIN, LONG_MAX]

/-- C16: for every non-empty sequence of lines that all carry the same state
code, analysed from the empty table, the entry's `snowCount` is the sum over
those lines of the snow field converted to `long`, that is truncated toward
zero (the sum being in the range of `long`); a field of `0.5` contributes 0 and
a field of `1` contributes 1. -/
theorem snowCount_sum_truncated (rs : List LineRead) (c : List Char) (hne : rs ≠ [])
    (hcode : ∀ r ∈ rs, tokens r 0 = c)
    (hlo : LONG_MIN ≤ (rs.map (fun r => toLong (atof (tokens r 4)))).sum)
    (hhi : (rs.map (fun r => toLong (atof (tokens r 4)))).sum ≤ LONG_MAX) :
    (∃ e rest, analyze_file rs emptyStates = some e :: rest ∧ e.code = c ∧
      e.snowCount = (rs.map (fun r => toLong (atof (tokens r 4)))).sum) ∧
      toLong (atof "0.5".toList) = 0 ∧ toLong (atof "1".toList) = 1 := by
  have s1 : scanDecimal "0.5".toList = ⟨true, false, 5, -1⟩ := by decide
  have s2 : scanDecimal "1".toList = ⟨true, false, 1, 0⟩ := by decide
  have a1 : atof "0.5".toList = 1 / 2 := by
    simp only [atof, s1, Decimal.value]; norm_num
  have a2 : atof "1".toList = 1 := by
    simp only [atof, s2, Decimal.value]; norm_num
  refine ⟨?_, by rw [a1, toLong_half], by rw [a2, toLong_one]⟩
  have hsnow : (rs.map (fun r => toLong (atof (tokens r 4)))) =
      (rs.map (fun r => parse (tokens r) r.block)).map (fun o => o.snowCount) := by
    rw [List.map_map]; rfl
  rw [hsnow] at hlo hhi ⊢
  have hcodes : ∀ o ∈ rs.map (fun r => parse (tokens r) r.block), o.code = c := by
    intro o ho
    rcases List.mem_map.1 ho with ⟨r, hr, rfl⟩
    exact hcode r hr
  rw [analyze_file_eq_ingest]
  rcases rs with _ | ⟨r, rs⟩
  · exact absurd rfl hne
  simp only [List.map_cons] at hlo hhi hcodes ⊢
  generalize parse (tokens r) r.block = o at hlo hhi hcodes ⊢
  generalize rs.map (fun r => parse (tokens r) r.block) = os at hlo hhi hcodes ⊢
  have hsame : ∀ o2 ∈ os, o2.code = o.code := by
    intro o2 h2
    rw [hcodes o2 (by simp [h2]), hcodes o (by simp)]
  have hrun : List.foldl ingest emptyStates (o :: os) = ingestAll (o :: os) := rfl
  rw [hrun, ingestAll_same_code o os hsame]
  refine ⟨_, _, rfl, ?_, ?_⟩
  · rw [foldl_fold_code]; exact hcodes o (by simp)
  · rcases List.eq_nil_or_concat os with h | ⟨i, x, h⟩
    · subst h; simp
    · subst h
      rw [List.concat_eq_append] at hlo hhi ⊢
      have hst := stats_foldl_fold o i x
      have h5 := congrArg (fun t => t.2.2.2.2.1) hst
      simp only [stats, totals] at h5
      rw [h5]
      exact wrapLong_of_range _ hlo hhi

/-- The three lines of `snowLines`, with snow fields `0.5`, `1` and `1.9`, give
a `WA` entry with `snowCount = 0 + 1 + 1`. -/
theorem snowCount_sum_truncated_witness :
    snowLines ≠ [] ∧ (∀ r ∈ snowLines, tokens r 0 = "WA".toList) ∧
      LONG_MIN ≤ (snowLines.map (fun r => toLong (atof (tokens r 4)))).sum ∧
      (snowLines.map (fun r => toLong (atof (tokens r 4)))).sum ≤ LONG_MAX ∧
      (snowLines.map (fun r => toLong (atof (tokens r 4)))).sum = 2 ∧
      ((∃ e rest, analyze_file snowLines emptyStates = some e :: rest ∧ e.code = "WA".toList ∧
        e.snowCount = (snowLines.map (fun r => toLong (atof (tokens r 4)))).sum) ∧
        toLong (atof "0.5".toList) = 0 ∧ toLong (atof "1".toList) = 1) := by
  have s1 : scanDecimal "0.5".toList = ⟨true, false, 5, -1⟩ := by decide
  have s2 : scanDecimal "1".toList = ⟨true, false, 1, 0⟩ := by decide
  have s3 : scanDecimal "1.9".toList = ⟨true, false, 19, -1⟩ := by decide
  have a1 : atof "0.5".toList = 1 / 2 := by
    simp only [atof, s1, Decimal.value]; norm_num
  have a2 : atof "1".toList = 1 := by
    simp only [atof, s2, Decimal.value]; norm_num
  have a3 : atof "1.9".toList = 19 / 10 := by
    simp only [atof, s3, Decimal.value]; norm_num
  have l3 : toLong (19 / 10) = 1 := by
    have hf : ⌊(19 / 10 : ℚ)⌋ = 1 := by
      rw [Int.floor_eq_iff]; norm_num
    simp only [toLong, hf, LONG_MIN, LONG_MAX]
    norm_num
  have t : snowLines.map (fun r => tokens r 4) =
      ["0.5".toList, "1".toList, "1.9".toList] := by decide
  have hsum : (snowLines.map (fun r => toLong (atof (tokens r 4)))).sum = 2 := by
    have : snowLines.map (fun r => toLong (atof (tokens r 4))) =
        (snowLines.map (fun r => tokens r 4)).map (fun s => toLong (atof s)) := by
      rw [List.map_map]; rfl
    rw [this, t]
    simp only [List.map_cons, List.map_nil, a1, a2, a3, toLong_half, toLong_one, l3]
    rfl
  have h0 : snowLines ≠ [] := by simp [snowLines]
  have h1 : ∀ r ∈ snowLines, tokens r 0 = "WA".toList := by
    intro r hr
    simp only [snowLines, List.mem_cons, List.mem_singleton, List.not_mem_nil, or_false] at hr
    rcases hr with rfl | rfl | rfl <;> decide
  have h2 : LONG_MIN ≤ (snowLines.map (fun r => toLong (atof (tokens r 4)))).sum := by
    rw [hsum]; decide
  have h3 : (snowLines.map (fun r => toLong (atof (tokens r 4)))).sum ≤ LONG_MAX := by
    rw [hsum]; decide
  exact ⟨h0, h1, h2, h3, hsum, snowCount_sum_truncated snowLines _ h0 h1 h2 h3⟩

/-- C12 (evaluation of the code): with the arguments `missing.tdv data_wa.tdv`,
where only `data_wa.tdv` can be opened, `main` reports the error for
`missing.tdv` and returns `EXIT_FAILURE` at once: `data_wa.tdv` is never opened
and no report is printed, whatever the file contains.  With `data_wa.tdv` alone
the file is analysed and the report printed. -/
theorem main_stops_at_unopenable_file (file : List LineRead) :
    main (oneFile file) ["./climate".toList, "missing.tdv".toList, "data_wa.tdv".toList] =
        (EXIT_FAILURE, [Output.openError "missing.tdv".toList]) ∧
      main (oneFile file) ["./climate".toList, "data_wa.tdv".toList] =
        (0, [Output.opening "data_wa.tdv".toList,
          print_report (analyze_file file emptyStates)]) := by
  constructor
  · rfl
  · rfl

end Climate
